import Mathlib

/-!
Verification development for the miappe_packaging / appnlib schema-driven
record-to-RDF mapping layer.  The repository holds two snapshots of the same
library: appnlib/core (types, utils, validator, dataclass with Codec,
Registry and Session) and src/miappe_packaging (base, utils, graph with
from_struct and to_struct).  Both are embedded below; every definition is a
shallow embedding of the correspondingly named Python function.  External
collaborators (the rdflib triple sink and Describer, the msgspec generic
converter) are modelled from the contracts the specification states for them.

Record field values are modelled as scalars or flat containers of scalars,
which covers every value shape the library: schemas declare scalar or
repeated-scalar ranges, so containers of containers never conform to a schema.
-/

/-- RDF URI references are compared by value, so a plain string models them. -/
abbrev URIRef := String

/-- Python str.startswith, evaluated on the character list. -/
def strStartsWith (s p : String) : Bool := p.data.isPrefixOf s.data

/-- Python string slicing s[n:], evaluated on the character list. -/
def strDrop (s : String) (n : Nat) : String := String.mk (s.data.drop n)

/-- An rdflib identified node: a blank node or a URI reference.  Two nodes are
equal iff they have the same kind and the same underlying string. -/
inductive IdentNode where
  | bnode (name : String)
  | uriref (uri : String)
deriving DecidableEq, Repr

/-- A native Python scalar from the supported value table, or None.  rdflib
URIRef and BNode values are str subclasses in Python, so identifier-valued
fields hold vstr values here. -/
inductive Scalar where
  | vnone
  | vstr (s : String)
  | vint (n : Int)
  | vbool (b : Bool)
  | vdate (y : Nat) (m : Nat) (d : Nat)
deriving DecidableEq, Repr

/-- A record field value: a scalar (possibly None) or a list/set container of
scalars.  Containers are the only values with a Python len that are not str. -/
inductive PyValue where
  | atom (a : Scalar)
  | list (items : List Scalar)
deriving DecidableEq, Repr

/-- Python str(x) for the supported scalars, used where the code casts a value
to an identifier. -/
def Scalar.pyStr : Scalar → String
  | .vnone => "None"
  | .vstr s => s
  | .vint n => toString n
  | .vbool b => if b then "True" else "False"
  | .vdate y m d => toString y ++ "-" ++ toString m ++ "-" ++ toString d

/-- The range slot of a FieldInfo: either a datatype URI reference or an
IDRef marker naming the referenced resource. -/
inductive RangeTy where
  | uri (r : URIRef)
  | idref (target : URIRef)
deriving DecidableEq, Repr

/-- A triple object: an identified node or a literal.  A literal keeps its
native value together with the datatype it was created with; within the
declared ranges, rdflib toPython returns the native value back. -/
inductive RDFNode where
  | node (n : IdentNode)
  | lit (value : Scalar) (datatype : Option RangeTy)
deriving DecidableEq, Repr

/-- An RDF statement (subject, predicate, object). -/
abbrev RDFTriple := IdentNode × URIRef × RDFNode

/-- The exception classes raised by the embedded code paths. -/
inductive PyError where
  | typeError
  | keyError
  | valueError
  | annotationError
  | integrityError
  | missingSchema
  | validationError
  | attributeError
  | recursionError
  | indexError
deriving DecidableEq, Repr

instance {ε α : Type} [DecidableEq ε] [DecidableEq α] : DecidableEq (Except ε α) := fun
  | .ok a, .ok b =>
    if h : a = b then isTrue (by rw [h]) else isFalse (by intro hh; cases hh; exact h rfl)
  | .ok _, .error _ => isFalse (by intro h; cases h)
  | .error _, .ok _ => isFalse (by intro h; cases h)
  | .error a, .error b =>
    if h : a = b then isTrue (by rw [h]) else isFalse (by intro hh; cases hh; exact h rfl)

def RDF_type : URIRef := "http://www.w3.org/1999/02/22-rdf-syntax-ns#type"

def XSD_ns : String := "http://www.w3.org/2001/XMLSchema#"

def XSD_IDREF : URIRef := XSD_ns ++ "IDREF"

def XSD_string : URIRef := XSD_ns ++ "string"

def XSD_integer : URIRef := XSD_ns ++ "integer"

def XSD_date : URIRef := XSD_ns ++ "date"

def XSD_float : URIRef := XSD_ns ++ "float"

def XSD_byte : URIRef := XSD_ns ++ "byte"

def XSD_boolean : URIRef := XSD_ns ++ "boolean"

def XSD_dateTime : URIRef := XSD_ns ++ "dateTime"

def XSD_time : URIRef := XSD_ns ++ "time"

def FOAF_ns : String := "http://xmlns.com/foaf/0.1/"

def FOAF_Person : URIRef := FOAF_ns ++ "Person"

/-- appnlib.core.utils.make_ref.  A missing identifier yields a freshly
generated blank node; the fresh name is passed explicitly because BNode()
draws it from an ambient generator.  An IdentifiedNode argument is returned
as is; a string argument parses to a blank node when it starts with the
reserved prefix and to a URI reference otherwise. -/
def make_ref (fresh : String) : Option (IdentNode ⊕ String) → IdentNode
  | Option.none => .bnode fresh
  | some (Sum.inl node) => node
  | some (Sum.inr s) => if strStartsWith s "_:" then .bnode (strDrop s 2) else .uriref s

example : make_ref "g" (some (Sum.inr "_:x")) = .bnode "x" := by decide

example : make_ref "g" (some (Sum.inr "http://a.org/b")) = .uriref "http://a.org/b" := by decide

example : make_ref "g" Option.none = .bnode "g" := by decide

/-- A Python object as seen by get_key_or_attribute: its attribute table and,
when the object is a dict, its key table.  hasattr consults the attribute
table; the dict branch consults the key table. -/
structure PyObject where
  attrs : List (String × PyValue)
  dict : Option (List (String × PyValue))
deriving DecidableEq, Repr

/-- appnlib.core.utils.get_key_or_attribute: try getattr first, then the dict
key, then either raise KeyError or return None. -/
def get_key_or_attribute (field : String) (obj : PyObject) (raise_error_if_missing : Bool) :
    Except PyError (Option PyValue) :=
  match obj.attrs.lookup field with
  | some v => .ok (some v)
  | Option.none =>
    match obj.dict with
    | some d =>
      match d.lookup field with
      | some v => .ok (some v)
      | Option.none => if raise_error_if_missing then .error .keyError else .ok Option.none
    | Option.none => if raise_error_if_missing then .error .keyError else .ok Option.none

/-- appnlib.core.types.FieldInfo, also the src.miappe_packaging FieldInfo.
The Python slot named repeat is embedded as repeats, since repeat is a
reserved word here.  The resource_ref slot is the reference-target marker
consulted by Session.add; the FieldInfo snapshot under src lacks it (only
Session.add and the test suite, which use a later revision, mention it), so
that slot is Modelled from the spec: an optional reference-target marker for
fields that point to other records, defaulting to absent. -/
structure FieldInfo where
  ref : URIRef
  range : Option RangeTy
  repeats : Bool
  required : Bool
  resource_ref : Option URIRef
deriving DecidableEq, Repr

/-- FieldInfo with only a predicate reference, every other slot at its
Python default. -/
def mkField (ref : URIRef) : FieldInfo :=
  ⟨ref, Option.none, false, true, Option.none⟩

/-- appnlib.core.types.Schema (named __rdf_resource__ in the miappe
snapshot): a resource marker plus the ordered name-to-FieldInfo table. -/
structure Schema where
  rdf_resource : URIRef
  attrs : List (String × FieldInfo)
deriving DecidableEq, Repr

/-- Schema.fields property: the set of schema attribute names, kept in
insertion order. -/
def Schema.fields (s : Schema) : List String := s.attrs.map Prod.fst

/-- Schema.required property: the names of required fields. -/
def Schema.required (s : Schema) : List String :=
  (s.attrs.filter (fun p => p.2.required)).map Prod.fst

/-- Schema.ref_mapping property: predicate reference to field name. -/
def Schema.ref_mapping (s : Schema) : List (URIRef × String) :=
  s.attrs.map (fun p => (p.2.ref, p.1))

/-- Schema.name_mapping property: the attrs table itself. -/
def Schema.name_mapping (s : Schema) : List (String × FieldInfo) := s.attrs

/-- Python set issubset on string sets represented as lists. -/
def subsetB (a b : List String) : Bool := a.all (fun x => b.contains x)

/-- Python set equality on string sets represented as lists. -/
def eqSetB (a b : List String) : Bool := subsetB a b && subsetB b a

/-- Python set discard of one name. -/
def removeName (n : String) (l : List String) : List String :=
  l.filter (fun x => x != n)

/-- appnlib.core.validator.SchemaValidator.is_sub_schema: same resource, field
set inclusion and required-field set inclusion.  The isinstance guards of the
source cannot fire here because the embedding is typed. -/
def is_sub_schema (src dst : Schema) : Bool :=
  src.rdf_resource == dst.rdf_resource
    && subsetB src.fields dst.fields
    && subsetB src.required dst.required

/-- The validation modes of SchemaValidator.describe_attrs; part stands for
the mode string spelled p-a-r-t-i-a-l in the source, a reserved word here. -/
inductive DescribeMode where
  | full
  | part
  | required
deriving DecidableEq, Repr

/-- The record-like inputs accepted by the validator utilities: a dict with
its keys, a msgspec Struct with its struct fields, a native dataclass with
its dataclass fields, a type exposing type hints, or an unsupported shape. -/
inductive AttrsLike where
  | dict (keys : List String)
  | struct (struct_fields : List String)
  | dataclass (dataclass_fields : List String)
  | annotated (ann_keys : List String)
  | other
deriving DecidableEq, Repr

/-- The field-set extraction at the top of describe_attrs; unsupported shapes
raise TypeError. -/
def attrsFieldSet : AttrsLike → Except PyError (List String)
  | .dict keys => .ok keys
  | .struct fs => .ok fs
  | .dataclass fs => .ok fs
  | .annotated fs => .ok fs
  | .other => .error .typeError

/-- appnlib.core.validator.SchemaValidator.describe_attrs.  The mode argument
is already one of the three valid modes, so the trailing ValueError branch of
the source is unreachable in the embedding. -/
def describe_attrs (attrs : AttrsLike) (schema : Schema) (mode : DescribeMode) :
    Except PyError Bool := do
  let field_set ← attrsFieldSet attrs
  match mode with
  | .required => .ok (subsetB schema.required field_set)
  | .part => .ok (subsetB schema.fields field_set)
  | .full => .ok (eqSetB schema.fields field_set)

/-- appnlib.core.utils.validate_schema (identical in src.miappe_packaging
.utils): compare the object field set and the schema field set, with the id
name discarded from both sides, raising AnnotationError on mismatch.  Every
supported shape of the object exposes its field names through dict keys or
type hints. -/
def validate_schema (obj : AttrsLike) (schema : Schema) : Except PyError Unit := do
  let obj_fields ← attrsFieldSet obj
  let schema_fields := schema.fields
  let obj_fields := removeName "id" obj_fields
  let schema_fields := removeName "id" schema_fields
  if eqSetB obj_fields schema_fields then .ok () else .error .annotationError

/-- An unparameterized Python type as classified by the derivation code:
a key of the PYTHON_TO_XSD table, the None literal, or a foreign type. -/
inductive PyBase where
  | tstr
  | tint
  | tfloat
  | tbool
  | tbytes
  | tdate
  | tdatetime
  | ttime
  | tany
  | tnone
  | tcustom (name : String)
deriving DecidableEq, Repr

/-- What issubclass reports about a generic origin: an ordered sequence type
(list, tuple), a set type, or a mapping type (dict). -/
inductive OriginKind where
  | sequenceO
  | setO
  | mappingO
deriving DecidableEq, Repr

/-- A member of a parameterized type hint: itself either plain, a container
of plain types, or a union of plain types.  Deeper nesting never reaches the
range table and is outside the shapes the library declares. -/
inductive InnerTy where
  | plain (b : PyBase)
  | cont (origin : OriginKind) (args : List PyBase)
  | union (args : List PyBase)
deriving DecidableEq, Repr

/-- A field type hint: a plain type, a parameterized container, or a union.
Union members are written in the flattened form the Python runtime stores. -/
inductive PyType where
  | plain (b : PyBase)
  | cont (origin : OriginKind) (args : List InnerTy)
  | union (args : List InnerTy)
deriving DecidableEq, Repr

/-- The PYTHON_TO_XSD table: the native scalar types with their range
markers, Any mapping to the string marker, and the None key mapping to no
marker.  Absent keys model unsupported types. -/
def PYTHON_TO_XSD : PyBase → Option (Option URIRef)
  | .tdate => some (some XSD_date)
  | .ttime => some (some XSD_time)
  | .tdatetime => some (some XSD_dateTime)
  | .tstr => some (some XSD_string)
  | .tint => some (some XSD_integer)
  | .tfloat => some (some XSD_float)
  | .tbytes => some (some XSD_byte)
  | .tbool => some (some XSD_boolean)
  | .tany => some (some XSD_string)
  | .tnone => some Option.none
  | .tcustom _ => Option.none

/-- Python set.add on the collected base-type set, in insertion order. -/
def addBase (l : List PyBase) (b : PyBase) : List PyBase :=
  if l.contains b then l else l ++ [b]

/-- Python set.update on the collected base-type set. -/
def addBases (l : List PyBase) (bs : List PyBase) : List PyBase :=
  bs.foldl addBase l

/-- Python set.add on the collected origin set, in insertion order. -/
def addOrigin (l : List OriginKind) (o : OriginKind) : List OriginKind :=
  if l.contains o then l else l ++ [o]

/-- The member loop of the derivation code: a parameterized member
contributes its own type arguments to base_type and its origin to origins,
a plain member contributes itself to base_type.  A union origin passes the
issubclass tests of neither branch, so it is dropped here. -/
def collectMembers (start : List OriginKind) (args : List InnerTy) :
    List PyBase × List OriginKind :=
  args.foldl
    (fun (acc : List PyBase × List OriginKind) tp =>
      match tp with
      | .plain b => (addBase acc.1 b, acc.2)
      | .cont o bs => (addBases acc.1 bs, addOrigin acc.2 o)
      | .union bs => (addBases acc.1 bs, acc.2))
    ([], start)

/-- The origin loop of appnlib field_info_from_annotations: the first
sequence or set origin sets the repeat flag and breaks out of the loop; a
mapping origin reached before that raises TypeError. -/
def scanOrigins : List OriginKind → Except PyError Bool
  | [] => .ok false
  | .sequenceO :: _ => .ok true
  | .setO :: _ => .ok true
  | .mappingO :: _ => .error .typeError

/-- The origin loop of the base.py variant: sequence and set origins set the
repeat flag and continue scanning, so a later mapping origin still raises. -/
def scanOriginsBase (acc : Bool) : List OriginKind → Except PyError Bool
  | [] => .ok acc
  | .sequenceO :: rest => scanOriginsBase true rest
  | .setO :: rest => scanOriginsBase true rest
  | .mappingO :: _ => .error .typeError

/-- The base-type loop shared by both variants: NoneType clears the required
flag, a type missing from the range table raises TypeError, and any other
type overwrites the range slot. -/
def rangeRequiredLoop (base_type : List PyBase) :
    Except PyError (Option URIRef × Bool) :=
  base_type.foldlM
    (fun (acc : Option URIRef × Bool) tp =>
      if tp = .tnone then .ok (acc.1, false)
      else
        match PYTHON_TO_XSD tp with
        | Option.none => .error .typeError
        | some r => .ok (r, acc.2))
    (Option.none, true)

/-- The parameterized path of appnlib.core.utils.field_info_from_annotations:
collect base types and origins (the top-level origin first), scan origins,
reject ambiguous unions (two members without a null, or more than two
members), then run the base-type loop. -/
def paramFieldInfo (field_name : String) (context : String)
    (topO : Option OriginKind) (args : List InnerTy) : Except PyError FieldInfo := do
  let start := match topO with
    | some o => [o]
    | Option.none => []
  let (base_type, origins) := collectMembers start args
  let repeats ← scanOrigins origins
  if base_type.length == 2 && !(base_type.contains .tnone) || base_type.length > 2 then
    .error .typeError
  else do
    let (range, required) ← rangeRequiredLoop base_type
    .ok ⟨context ++ field_name, range.map RangeTy.uri, repeats, required, Option.none⟩

/-- appnlib.core.utils.field_info_from_annotations.  The class name argument
only feeds error messages. -/
def field_info_from_annotations (field_name : String) (class_name : String)
    (ann : PyType) (context : String) : Except PyError FieldInfo :=
  match ann with
  | .plain b =>
    match PYTHON_TO_XSD b with
    | Option.none => .error .typeError
    | some r =>
      .ok ⟨context ++ field_name, r.map RangeTy.uri, false, !(b == .tnone), Option.none⟩
  | .cont o args => paramFieldInfo field_name context (some o) args
  | .union args => paramFieldInfo field_name context Option.none args

/-- The parameterized path of the base.py variant: origins come from the
member loop only, sequence origins do not break the scan, and the union
check raises AnnotationError only when no null member is present. -/
def paramFieldInfoBase (field_name : String) (context : String)
    (args : List InnerTy) : Except PyError FieldInfo := do
  let (base_type, origins) := collectMembers [] args
  let repeats ← scanOriginsBase false origins
  if base_type.length ≥ 2 && !(base_type.contains .tnone) then
    .error .annotationError
  else do
    let (range, required) ← rangeRequiredLoop base_type
    .ok ⟨context ++ field_name, range.map RangeTy.uri, repeats, required, Option.none⟩

/-- src.miappe_packaging.base.field_info_from_annotations, the earlier
snapshot of the same derivation.  Its plain path never clears the required
flag. -/
def field_info_from_annotations_base (field_name : String) (class_name : String)
    (ann : PyType) (context : String) : Except PyError FieldInfo :=
  match ann with
  | .plain b =>
    match PYTHON_TO_XSD b with
    | Option.none => .error .typeError
    | some r => .ok ⟨context ++ field_name, r.map RangeTy.uri, false, true, Option.none⟩
  | .cont _ args => paramFieldInfoBase field_name context args
  | .union args => paramFieldInfoBase field_name context args

example :
    field_info_from_annotations "name" "Test" (.cont .sequenceO [.plain .tint]) "./" =
      .ok ⟨"./name", some (.uri XSD_integer), true, true, Option.none⟩ := by decide

example :
    field_info_from_annotations "name" "Test" (.union [.plain .tint, .plain .tnone]) "./" =
      .ok ⟨"./name", some (.uri XSD_integer), false, false, Option.none⟩ := by decide

example :
    field_info_from_annotations "name" "Test"
      (.cont .setO [.union [.ttime, .tnone]]) "./" =
      .ok ⟨"./name", some (.uri XSD_time), true, false, Option.none⟩ := by decide

example :
    field_info_from_annotations "name" "Test"
      (.cont .mappingO [.plain .tstr, .plain .tany]) "./" = .error .typeError := by decide

/-- A LinkedDataClass instance: the id slot plus the declared fields in
declaration order.  __struct_fields__ lists id followed by the field names. -/
structure Inst where
  id : String
  schema : Schema
  fields : List (String × PyValue)
deriving DecidableEq, Repr

/-- The appnlib LinkedDataClass.ID property: make_ref applied to the id
string.  The id slot always holds a string, so no fresh name is drawn. -/
def Inst.ID (r : Inst) : IdentNode := make_ref "" (some (Sum.inr r.id))

/-- src.miappe_packaging.utils.bnode_factory: a fresh local URI reference. -/
def bnode_factory (fresh : String) : IdentNode := .uriref ("./localID/" ++ fresh)

/-- src.miappe_packaging.utils.make_ref: falsy identifiers draw a fresh local
reference, BNode values are relocated under the localID prefix, and any other
string (URI references included) stays a URI reference. -/
def make_ref_m (fresh : String) : Option (IdentNode ⊕ String) → IdentNode
  | Option.none => bnode_factory fresh
  | some (Sum.inl (.bnode name)) =>
    if name == "" then bnode_factory fresh
    else if strStartsWith name "./localID" then .uriref name
    else .uriref ("./localID/" ++ name)
  | some (Sum.inl (.uriref u)) => if u == "" then bnode_factory fresh else .uriref u
  | some (Sum.inr s) => if s == "" then bnode_factory fresh else .uriref s

/-- The miappe LinkedDataClass.ID property: the miappe make_ref applied to
the id string. -/
def Inst.IDm (r : Inst) : IdentNode := make_ref_m "" (some (Sum.inr r.id))

/-- make_ref applied to a field element inside Codec.encode_to_triple: a None
value draws a fresh blank node, a str value follows the make_ref string rule,
and any other scalar raises TypeError.  The Nat result counts consumed fresh
names. -/
def make_ref_scalar (fresh : Nat → String) (k : Nat) :
    Scalar → Except PyError (IdentNode × Nat)
  | .vnone => .ok (.bnode (fresh k), k + 1)
  | .vstr s => .ok (make_ref "" (some (Sum.inr s)), k)
  | _ => .error .typeError

/-- appnlib.core.dataclass.Codec.encode_to_triple.  Walks the struct fields
(id excluded), raises AnnotationError when a non-repeat field holds a
container, wraps single values into a one-element list, and emits one triple
per element: a reference when the field range equals the IDREF marker, a
literal tagged with the range otherwise.  No is-a statement is emitted.  The
trailing loop of the source over __dict__ never runs because msgspec structs
carry no __dict__.  The fresh supply feeds blank nodes drawn for None
elements of IDREF fields. -/
def encode_to_triple (fresh : Nat → String) (dataclass : Inst) :
    Except PyError (List RDFTriple) := do
  let schema := dataclass.schema
  let result ← dataclass.fields.foldlM
    (fun (acc : List RDFTriple × Nat) sfield => do
      let name := sfield.1
      let value := sfield.2
      let info ← match schema.attrs.lookup name with
        | some i => Except.ok i
        | Option.none => Except.error PyError.keyError
      let elems ← match value with
        | .list items =>
          if !info.repeats then Except.error PyError.annotationError
          else Except.ok items
        | .atom a => Except.ok [a]
      elems.foldlM
        (fun (acc2 : List RDFTriple × Nat) a => do
          if info.range == some (.uri XSD_IDREF) then
            let cast ← make_ref_scalar fresh acc2.2 a
            Except.ok (acc2.1 ++ [(dataclass.ID, info.ref, RDFNode.node cast.1)], cast.2)
          else
            Except.ok
              (acc2.1 ++ [(dataclass.ID, info.ref, RDFNode.lit a info.range)], acc2.2))
        acc)
    (([] : List RDFTriple), 0)
  .ok result.1

/-- rdflib Graph.add: a graph is a set of statements, modelled as a
duplicate-free list kept in insertion order. -/
def graphAdd (g : List RDFTriple) (t : RDFTriple) : List RDFTriple :=
  if g.contains t then g else g ++ [t]

/-- rdflib Graph.addN over a list of statements bound to one graph. -/
def graphAddAll (g : List RDFTriple) (ts : List RDFTriple) : List RDFTriple :=
  ts.foldl graphAdd g

/-- rdflib Describer.rdftype, modelled from the specification contract of the
external sink: assert the is-a statement about the current subject. -/
def describer_rdftype (g : List RDFTriple) (about : IdentNode) (t : URIRef) :
    List RDFTriple :=
  graphAdd g (about, RDF_type, RDFNode.node (.uriref t))

/-- rdflib Describer.value, modelled from the specification contract: assert
a literal statement tagged with the given datatype. -/
def describer_value (g : List RDFTriple) (about : IdentNode) (p : URIRef)
    (v : Scalar) (datatype : Option RangeTy) : List RDFTriple :=
  graphAdd g (about, p, RDFNode.lit v datatype)

/-- rdflib Describer.rel, modelled from the specification contract: cast the
object to an identifier by the identifier construction rule of the data model
and assert a reference statement. -/
def describer_rel (g : List RDFTriple) (about : IdentNode) (p : URIRef)
    (v : Scalar) : List RDFTriple :=
  graphAdd g (about, p, RDFNode.node (make_ref "" (some (Sum.inr v.pyStr))))

/-- One leaf step of src.miappe_packaging.graph._describer_add_value: None is
skipped, an IDRef range emits a reference, anything else emits a literal
tagged with the range. -/
def describer_add_scalar (g : List RDFTriple) (about : IdentNode) (info : FieldInfo)
    (a : Scalar) : List RDFTriple :=
  if a = .vnone then g
  else
    match info.range with
    | some (.idref _) => describer_rel g about info.ref a
    | dt => describer_value g about info.ref a dt

/-- src.miappe_packaging.graph._describer_add_value: a container value is
walked element by element with no repeat check at all; scalars go through the
leaf step. -/
def describer_add_value (g : List RDFTriple) (about : IdentNode) (info : FieldInfo) :
    PyValue → List RDFTriple
  | .atom a => describer_add_scalar g about info a
  | .list items => items.foldl (fun g' a => describer_add_scalar g' about info a) g

/-- src.miappe_packaging.graph.from_struct for a record input that carries
its own schema.  An explicitly supplied schema is validated against the
record first; otherwise the record schema is used (an Inst always has one,
so the MissingSchema branch of the source is out of reach here).  The graph
identifier only names the returned graph and is not part of any statement,
so it is dropped.  The subject comes from the ID property, and every schema
field is read with raise_error_if_missing set. -/
def from_struct (struct : Inst) (schemaArg : Option Schema)
    (graphArg : Option (List RDFTriple)) : Except PyError (List RDFTriple) := do
  let schema ← match schemaArg with
    | some s => do
      validate_schema (.annotated ("id" :: struct.fields.map Prod.fst)) s
      Except.ok s
    | Option.none => Except.ok struct.schema
  let graph := match graphArg with
    | some g => g
    | Option.none => []
  let instance_id := struct.IDm
  let g := describer_rdftype graph instance_id schema.rdf_resource
  schema.name_mapping.foldlM
    (fun g' p =>
      match struct.fields.lookup p.1 with
      | some value => Except.ok (describer_add_value g' instance_id p.2 value)
      | Option.none => Except.error PyError.keyError)
    g

/-- One attrs entry accumulated during decoding: the raw id string seeded at
the start, a single statement object, or the list built for a repeat field. -/
inductive DecVal where
  | raw (v : PyValue)
  | node (o : RDFNode)
  | nodes (os : List RDFNode)
deriving DecidableEq, Repr

/-- Python dict assignment: replace the binding in place when the key exists,
append it otherwise. -/
def aset {α β : Type} [BEq α] : List (α × β) → α → β → List (α × β)
  | [], k, v => [(k, v)]
  | p :: rest, k, v => if p.1 == k then (p.1, v) :: rest else p :: aset rest k v

/-- src.miappe_packaging.graph.update_attrs_from_stmt on the path where a
schema is supplied, the only path to_struct exercises.  The is-a statement is
skipped; other predicates map back to their field name through ref_mapping;
a repeat field accumulates a list; a second statement for a non-repeat field
raises AnnotationError; appending to a non-list entry raises
AttributeError. -/
def update_attrs_from_stmt (pred : URIRef) (value : RDFNode)
    (attrs : List (String × DecVal)) (schema : Schema) :
    Except PyError (List (String × DecVal)) :=
  if pred == RDF_type then .ok attrs
  else
    match schema.ref_mapping.lookup pred with
    | Option.none => .error .keyError
    | some name =>
      match schema.attrs.lookup name with
      | Option.none => .error .keyError
      | some info =>
        if info.repeats then
          match attrs.lookup name with
          | some (.nodes os) => .ok (aset attrs name (.nodes (os ++ [value])))
          | some _ => .error .attributeError
          | Option.none => .ok (attrs ++ [(name, .nodes [value])])
        else
          match attrs.lookup name with
          | some _ => .error .annotationError
          | Option.none => .ok (attrs ++ [(name, .node value)])

/-- src.miappe_packaging.graph.get_subjects on the path where a truthy
identifier is supplied, the path to_struct exercises: resolve the identifier,
require it to appear as a subject, and when a schema is also given require
the is-a statement for the schema resource. -/
def get_subjects_ident (graph : List RDFTriple) (identifier : IdentNode ⊕ String)
    (schemaArg : Option Schema) : Except PyError (List IdentNode) := do
  let ident := make_ref_m "" (some identifier)
  if !(graph.any (fun t => t.1 == ident)) then .error .valueError
  else
    match schemaArg with
    | some schema =>
      if !(graph.contains (ident, RDF_type, RDFNode.node (.uriref schema.rdf_resource))) then
        .error .valueError
      else .ok [ident]
    | Option.none => .ok [ident]

/-- rdflib Graph.predicate_objects with the unique flag: the
predicate-object pairs of the statements about one subject, in insertion
order with duplicates removed. -/
def predicate_objects (graph : List RDFTriple) (subject : IdentNode) :
    List (URIRef × RDFNode) :=
  ((graph.filter (fun t => t.1 == subject)).map (fun t => (t.2.1, t.2.2))).dedup

/-- Python str on an identified node. -/
def IdentNode.pyStr : IdentNode → String
  | .uriref u => u
  | .bnode b => b

/-- The msgspec to_builtins pass with the json enc_hook: a literal and a URI
reference give back their native value (toPython), while a blank-node object
reaches the end of the hook and raises TypeError. -/
def enc_hook_node : RDFNode → Except PyError Scalar
  | .lit v _ => .ok v
  | .node (.uriref u) => .ok (.vstr u)
  | .node (.bnode _) => .error .typeError

/-- The builtins pass applied to one accumulated attrs entry. -/
def builtinVal : DecVal → Except PyError PyValue
  | .raw v => .ok v
  | .node o => (enc_hook_node o).map PyValue.atom
  | .nodes os => (os.mapM enc_hook_node).map PyValue.list

/-- src.miappe_packaging.graph.to_builtin on the identifier-and-schema path:
collect the subject, seed the attrs dict with the id string, fold the
subject statements through update_attrs_from_stmt, and run the builtins
pass over the resulting dict. -/
def to_builtin_ident (graph : List RDFTriple) (identifier : IdentNode ⊕ String)
    (schema : Schema) : Except PyError (List (List (String × PyValue))) := do
  let id_pool ← get_subjects_ident graph identifier (some schema)
  id_pool.mapM (fun item => do
    let start : List (String × DecVal) := [("id", .raw (.atom (.vstr item.pyStr)))]
    let stmts := predicate_objects graph item
    let item_attrs ← stmts.foldlM
      (fun attrs po => update_attrs_from_stmt po.1 po.2 attrs schema) start
    item_attrs.mapM (fun p => (builtinVal p.2).map (fun v => (p.1, v))))

/-- A LinkedDataClass subclass as msgspec.convert sees it: its schema and its
declared fields with their defaults; no default marks a required field. -/
structure ModelCls where
  schema : Schema
  fieldsDef : List (String × Option PyValue)
deriving DecidableEq, Repr

/-- msgspec.convert with the json dec_hook and strict off, modelled from the
specification contract of the generic decoder: the id slot takes the decoded
id string, each declared field takes the decoded value when present and its
declared default otherwise, and a missing field with no default fails
validation.  Identifier-typed values are str subclasses both before and
after the dec_hook cast, so the cast keeps their value. -/
def msgspec_convert (attrs : List (String × PyValue)) (model : ModelCls) :
    Except PyError Inst := do
  let idStr ← match attrs.lookup "id" with
    | some (.atom (.vstr s)) => Except.ok s
    | _ => Except.error PyError.validationError
  let fields ← model.fieldsDef.mapM (fun fd =>
    match attrs.lookup fd.1 with
    | some v => Except.ok (fd.1, v)
    | Option.none =>
      match fd.2 with
      | some d => Except.ok (fd.1, d)
      | Option.none => Except.error PyError.validationError)
  Except.ok ⟨idStr, model.schema, fields⟩

/-- src.miappe_packaging.graph.to_struct: decode the statements about one
identifier against the schema (the model class schema when none is supplied)
and convert the first decoded attrs dict into the model class. -/
def to_struct (graph : List RDFTriple) (identifier : IdentNode ⊕ String)
    (model_cls : ModelCls) (schemaArg : Option Schema) : Except PyError Inst := do
  let schema := match schemaArg with
    | some s => s
    | Option.none => model_cls.schema
  let data_kwargs ← to_builtin_ident graph identifier schema
  match data_kwargs with
  | [] => .error .indexError
  | d :: _ => msgspec_convert d model_cls

/-- The rdf_resource property of a LinkedDataClass instance. -/
def Inst.rdf_resource (r : Inst) : URIRef := r.schema.rdf_resource

/-- The on_conflict_schema policies of RegistryConfig. -/
inductive ConflictSchema where
  | raise
  | overwrite
  | subclass
  | ignore
deriving DecidableEq, Repr

/-- The on_confict_identifier policies of RegistryConfig (the slot name typo
is the source spelling). -/
inductive ConflictId where
  | raise
  | overwrite
  | ignore
deriving DecidableEq, Repr

/-- appnlib.core.dataclass.RegistryConfig. -/
structure RegistryConfig where
  on_conflict_schema : ConflictSchema
  on_confict_identifier : ConflictId
deriving DecidableEq, Repr

/-- The mutable tables of the Registry singleton: schemas by resource and
instances by resource and identifier.  Sessions live outside the claims about
registry state and are kept separately. -/
structure RegistryState where
  schema_dict : List (URIRef × Schema)
  instance_dict : List (URIRef × List (IdentNode × Inst))
deriving DecidableEq, Repr

/-- Registry._handle_conflict_instance.  The source match has no case for the
ignore policy, so ignore falls through with no mutation; a raised
IntegrityError happens before any mutation, which the paired return makes
explicit by carrying the untouched state. -/
def handle_conflict_instance (cfg : RegistryConfig) (st : RegistryState) (inst : Inst) :
    Option PyError × RegistryState :=
  match cfg.on_confict_identifier with
  | .raise => (some .integrityError, st)
  | .overwrite =>
    match st.instance_dict.lookup inst.rdf_resource with
    | some imap =>
      (Option.none,
        { st with
          instance_dict := aset st.instance_dict inst.rdf_resource (aset imap inst.ID inst) })
    | Option.none => (some .keyError, st)
  | .ignore => (Option.none, st)

/-- Registry._handle_conflict_schema.  Under the subclass policy the earlier
schema is kept when the new one is its sub-schema, the new schema is stored
when the earlier one is its sub-schema, and IntegrityError is raised when
neither holds.  ignore matches no case and falls through unchanged. -/
def handle_conflict_schema (cfg : RegistryConfig) (st : RegistryState) (obj : Schema) :
    Option PyError × RegistryState :=
  match cfg.on_conflict_schema with
  | .raise => (some .integrityError, st)
  | .overwrite =>
    (Option.none, { st with schema_dict := aset st.schema_dict obj.rdf_resource obj })
  | .subclass =>
    match st.schema_dict.lookup obj.rdf_resource with
    | Option.none => (some .keyError, st)
    | some prev_obj =>
      if is_sub_schema obj prev_obj then
        (Option.none, { st with schema_dict := aset st.schema_dict obj.rdf_resource prev_obj })
      else if is_sub_schema prev_obj obj then
        (Option.none, { st with schema_dict := aset st.schema_dict obj.rdf_resource obj })
      else (some .integrityError, st)
  | .ignore => (Option.none, st)

/-- Registry.register_schema: a fresh resource stores the schema and an empty
instance table; a seen resource goes through the conflict handler. -/
def register_schema (cfg : RegistryConfig) (st : RegistryState) (schema : Schema) :
    Option PyError × RegistryState :=
  if (st.schema_dict.lookup schema.rdf_resource).isSome then
    handle_conflict_schema cfg st schema
  else
    (Option.none,
      { schema_dict := aset st.schema_dict schema.rdf_resource schema,
        instance_dict := aset st.instance_dict schema.rdf_resource [] })

/-- Registry.register_instance.  When the resource has no instance table the
source registers the schema and calls itself again; the fuel bounds that self
call, and exhausted fuel models the RecursionError the unbounded Python loop
hits when register_schema resolves a conflict without creating the missing
instance table. -/
def register_instance_fuel (cfg : RegistryConfig) :
    Nat → RegistryState → Inst → Option PyError × RegistryState
  | 0, st, _ => (some .recursionError, st)
  | fuel + 1, st, inst =>
    match st.instance_dict.lookup inst.rdf_resource with
    | some imap =>
      if (imap.lookup inst.ID).isSome then handle_conflict_instance cfg st inst
      else
        (Option.none,
          { st with
            instance_dict := aset st.instance_dict inst.rdf_resource (aset imap inst.ID inst) })
    | Option.none =>
      match register_schema cfg st inst.schema with
      | (some e, st2) => (some e, st2)
      | (Option.none, st2) => register_instance_fuel cfg fuel st2 inst

/-- Registry.register_instance at the fuel every terminating source path
needs: one direct attempt plus one attempt after schema registration. -/
def register_instance (cfg : RegistryConfig) (st : RegistryState) (inst : Inst) :
    Option PyError × RegistryState :=
  register_instance_fuel cfg 2 st inst

/-- Registry.get_instance: exact lookup, KeyError when either key is
missing, never creating anything. -/
def get_instance (st : RegistryState) (resource : URIRef) (identifier : IdentNode) :
    Except PyError Inst :=
  match st.instance_dict.lookup resource with
  | Option.none => .error .keyError
  | some imap =>
    match imap.lookup identifier with
    | Option.none => .error .keyError
    | some inst => .ok inst

/-- A Session: the wrapped sink graph plus the set of identifiers already
added through reference resolution. -/
structure SessionState where
  graph : List RDFTriple
  instances : List IdentNode
deriving DecidableEq, Repr

/-- Session._add_dataclass: encode the record and push every triple into the
sink graph. -/
def session_add_dataclass (fresh : Nat → String) (s : SessionState) (dataclass : Inst) :
    Except PyError SessionState :=
  (encode_to_triple fresh dataclass).map
    (fun ts => { s with graph := graphAddAll s.graph ts })

/-- The body of the value loop of Session.add: make_ref the value, skip it
when its identifier was already added, otherwise resolve it against the
registry (running make_ref on the value a second time, as the source does),
add the matched record and remember the identifier. -/
def session_add_ref_value (fresh : Nat → String) (reg : RegistryState)
    (ref_resource : URIRef) (acc2 : SessionState × Nat) (value : Scalar) :
    Except PyError (SessionState × Nat) := do
  let cast1 ← make_ref_scalar fresh acc2.2 value
  if acc2.1.instances.contains cast1.1 then Except.ok (acc2.1, cast1.2)
  else do
    let cast2 ← make_ref_scalar fresh cast1.2 value
    let matched_instance ← get_instance reg ref_resource cast2.1
    let s2 ← session_add_dataclass fresh acc2.1 matched_instance
    Except.ok ({ s2 with instances := s2.instances ++ [cast1.1] }, cast2.2)

/-- The body of the field loop of Session.add: fields without a
reference-target marker are skipped; for the others the field value is read,
a single value is wrapped into a list, and every value goes through the
value loop. -/
def session_add_field (fresh : Nat → String) (reg : RegistryState) (dataclass : Inst)
    (acc : SessionState × Nat) (p : String × FieldInfo) :
    Except PyError (SessionState × Nat) :=
  match p.2.resource_ref with
  | Option.none => Except.ok acc
  | some ref_resource => do
    let range_value ← match dataclass.fields.lookup p.1 with
      | some v => Except.ok v
      | Option.none => Except.error PyError.attributeError
    let values := match range_value with
      | .atom a => [a]
      | .list items => items
    values.foldlM (session_add_ref_value fresh reg ref_resource) acc

/-- Session.add: add the record itself, then walk the schema fields through
the field loop, guarded by the per-session set of already added identifiers.
The counter threads the fresh names the make_ref calls could draw. -/
def session_add (fresh : Nat → String) (reg : RegistryState) (s : SessionState)
    (dataclass : Inst) : Except PyError SessionState := do
  let s ← session_add_dataclass fresh s dataclass
  let schema := dataclass.schema
  let result ← schema.attrs.foldlM (session_add_field fresh reg dataclass) (s, 0)
  .ok result.1

def FOAF_firstName : URIRef := FOAF_ns ++ "firstName"

def FOAF_lastName : URIRef := FOAF_ns ++ "lastName"

def FOAF_birthday : URIRef := FOAF_ns ++ "birthday"

def FOAF_knows : URIRef := FOAF_ns ++ "knows"

/-- The Person schema of the quickstart scenario: two plain literal fields, a
date field and a repeated reference field. -/
def personSchema : Schema :=
  ⟨FOAF_Person,
    [("firstName", mkField FOAF_firstName),
     ("lastName", mkField FOAF_lastName),
     ("birthday", ⟨FOAF_birthday, some (.uri XSD_date), false, true, Option.none⟩),
     ("knows", ⟨FOAF_knows, some (.idref FOAF_Person), true, true, Option.none⟩)]⟩

/-- The record me of the quickstart scenario: a first name, a birthday, no
last name and nobody known. -/
def meInst : Inst :=
  ⟨"http://example.org/me", personSchema,
    [("firstName", .atom (.vstr "Me")),
     ("lastName", .atom .vnone),
     ("birthday", .atom (.vdate 2015 10 10)),
     ("knows", .list [])]⟩

/-- A one-field schema mirroring the basic Codec test. -/
def personSchema1 : Schema := ⟨FOAF_Person, [("firstName", mkField FOAF_firstName)]⟩

/-- The record of the basic Codec test. -/
def meInstBasic : Inst :=
  ⟨"http://example.org/me", personSchema1, [("firstName", .atom (.vstr "Me"))]⟩

/-- A two-field schema whose second field holds None, for the Codec
behaviour on none-valued fields. -/
def personSchema2 : Schema :=
  ⟨FOAF_Person, [("firstName", mkField FOAF_firstName), ("lastName", mkField FOAF_lastName)]⟩

/-- A record with a none-valued second field. -/
def meInstNone : Inst :=
  ⟨"http://example.org/me", personSchema2,
    [("firstName", .atom (.vstr "Me")), ("lastName", .atom .vnone)]⟩

/-- A schema whose single field is not marked repeat. -/
def tagsSchema : Schema := ⟨FOAF_Person, [("tags", mkField "./tags")]⟩

/-- A record whose non-repeat field holds a two-element container. -/
def tagsInst : Inst :=
  ⟨"http://example.org/t", tagsSchema, [("tags", .list [.vstr "a", .vstr "b"])]⟩

/-- The same record shape with a single scalar in the field. -/
def tagsScalarInst : Inst :=
  ⟨"http://example.org/t", tagsSchema, [("tags", .atom (.vstr "a"))]⟩

/-- A schema with one field: the sub-schema of the subclass-policy pair. -/
def schemaSubA : Schema := ⟨FOAF_Person, [("firstName", mkField FOAF_firstName)]⟩

/-- A schema extending schemaSubA by one field: its super-schema. -/
def schemaSuperB : Schema :=
  ⟨FOAF_Person, [("firstName", mkField FOAF_firstName), ("lastName", mkField FOAF_lastName)]⟩

/-- A registry configured with the subclass schema policy. -/
def cfgSubclass : RegistryConfig := ⟨.subclass, .overwrite⟩

/-- A registry state already holding the super-schema. -/
def stWithB : RegistryState := ⟨[(FOAF_Person, schemaSuperB)], [(FOAF_Person, [])]⟩

/-- A registry configured to raise on identifier conflicts. -/
def cfgRaiseId : RegistryConfig := ⟨.overwrite, .raise⟩

/-- A registry state already holding the record me under its identifier. -/
def stWithMe : RegistryState :=
  ⟨[(FOAF_Person, personSchema1)], [(FOAF_Person, [(meInstBasic.ID, meInstBasic)])]⟩

/-- A different record colliding with the registered identifier. -/
def meInstClash : Inst :=
  ⟨"http://example.org/me", personSchema1, [("firstName", .atom (.vstr "Him"))]⟩

/-- The statement object the graph encoder emits for one present scalar: a
reference for IDRef ranges, a tagged literal otherwise. -/
def leafObj (info : FieldInfo) (a : Scalar) : RDFNode :=
  match info.range with
  | some (.idref _) => .node (make_ref "" (some (Sum.inr a.pyStr)))
  | dt => .lit a dt

/-- The present scalars of a field value: a non-None scalar stands alone, a
container contributes its non-None elements, None contributes nothing. -/
def presentItems : PyValue → List Scalar
  | .atom a => if a = .vnone then [] else [a]
  | .list items => items.filter (fun a => a != Scalar.vnone)

/-- The leaf triple the graph encoder emits for one present scalar. -/
def leafTriple (sid : IdentNode) (info : FieldInfo) (a : Scalar) : RDFTriple :=
  (sid, info.ref, leafObj info a)

/-- The triples one field contributes: one per present scalar. -/
def fieldTriples (sid : IdentNode) (info : FieldInfo) (v : PyValue) : List RDFTriple :=
  (presentItems v).map (leafTriple sid info)

/-- A field value that contributes no statement at all: None, or a container
with no present element. -/
def encodesNothing (v : PyValue) : Bool := presentItems v == []

/-- The attrs entry the decoder accumulates for one field: the object list of
a repeat field, the single object of a non-repeat field, nothing when the
field contributed no statement.  A non-repeat field with several present
items makes the decoder raise, so that shape carries no entry. -/
def decodedEntry (p : String × FieldInfo) (v : PyValue) : List (String × DecVal) :=
  if p.2.repeats then
    match presentItems v with
    | [] => []
    | items => [(p.1, DecVal.nodes (items.map (leafObj p.2)))]
  else
    match presentItems v with
    | [a] => [(p.1, DecVal.node (leafObj p.2 a))]
    | _ => []

/-- The builtins-stage entry for one field: the container of present items
for a repeat field, the single present item otherwise. -/
def builtEntry (p : String × FieldInfo) (v : PyValue) : List (String × PyValue) :=
  if p.2.repeats then
    match presentItems v with
    | [] => []
    | items => [(p.1, PyValue.list items)]
  else
    match presentItems v with
    | [a] => [(p.1, PyValue.atom a)]
    | _ => []

/-- The full emission of from_struct in order: the is-a statement first, then
the per-field triples in schema order. -/
def emitList (r : Inst) : List RDFTriple :=
  (r.IDm, RDF_type, RDFNode.node (.uriref r.schema.rdf_resource)) ::
    r.schema.attrs.flatMap
      (fun p => fieldTriples r.IDm p.2 ((r.fields.lookup p.1).getD (.atom .vnone)))

/-- One scalar lies within a declared range: identifier ranges take nonempty
resolved reference strings, datatype ranges take values of the mapped native
type, an untagged range takes any scalar, and None is not a range member. -/
def scalarMatchesRange : Option RangeTy → Scalar → Bool
  | some (.idref _), .vstr s => !(s == "") && !(strStartsWith s "_:")
  | some (.idref _), _ => false
  | some (.uri r), .vstr _ => r == XSD_string
  | some (.uri r), .vint _ => r == XSD_integer
  | some (.uri r), .vbool _ => r == XSD_boolean
  | some (.uri r), .vdate _ _ _ => r == XSD_date
  | some (.uri _), _ => false
  | Option.none, .vnone => false
  | Option.none, _ => true

/-- One field value lies within the declared range of its FieldInfo: None is
always admissible, a single scalar fits a non-repeat field, and a container
of in-range scalars fits a repeat field. -/
def fieldInRange (info : FieldInfo) : PyValue → Bool
  | .atom a => a == .vnone || (!info.repeats && scalarMatchesRange info.range a)
  | .list items => info.repeats && items.all (fun a => scalarMatchesRange info.range a)

/-- The precondition of the round-trip property as the specification states
it: the record has a nonempty identifier and every schema field holds a value
within its declared range. -/
def withinRanges (r : Inst) : Bool :=
  !(r.id == "") &&
    r.schema.attrs.all (fun p =>
      match r.fields.lookup p.1 with
      | some v => fieldInRange p.2 v
      | Option.none => false)

/-- Every container value of the record is duplicate-free. -/
def repeatListsNodup (r : Inst) : Bool :=
  r.fields.all (fun p =>
    match p.2 with
    | .list items => items.dedup == items
    | _ => true)

/-- The schema bookkeeping the decoder relies on: distinct field names,
distinct predicate references, no field on the is-a predicate, and no field
named id. -/
def schemaSane (s : Schema) : Bool :=
  (s.attrs.map Prod.fst).dedup == s.attrs.map Prod.fst
    && ((s.attrs.map (fun p => p.2.ref)).dedup == s.attrs.map (fun p => p.2.ref))
    && !((s.attrs.map (fun p => p.2.ref)).contains RDF_type)
    && !((s.attrs.map Prod.fst).contains "id")

/-- The model class declares the record fields in the same order, and any
field whose value encodes to no statement (None, or an empty container)
declares exactly that value as its default. -/
def defaultsConsistent (r : Inst) (model : ModelCls) : Bool :=
  model.fieldsDef.length == r.fields.length
    && (model.fieldsDef.zip r.fields).all (fun q =>
      q.1.1 == q.2.1
        && (if q.2.2 == PyValue.atom .vnone || q.2.2 == PyValue.list [] then
              q.1.2 == some q.2.2
            else true))

/-- The schema of the duplicate-value counterexample: one repeated string
field. -/
def dupSchema : Schema :=
  ⟨FOAF_Person, [("tags", ⟨"./tags", some (.uri XSD_string), true, true, Option.none⟩)]⟩

/-- A record whose repeat field holds the same string twice. -/
def dupInst : Inst :=
  ⟨"http://example.org/d", dupSchema, [("tags", .list [.vstr "a", .vstr "a"])]⟩

/-- The model class of the duplicate-value counterexample. -/
def dupModel : ModelCls := ⟨dupSchema, [("tags", Option.none)]⟩

/-- What the round trip actually returns for dupInst: the duplicate is gone. -/
def dupDecoded : Inst :=
  ⟨"http://example.org/d", dupSchema, [("tags", .list [.vstr "a"])]⟩

/-- The predicate-object pairs read back from the emitted statements: the
is-a pair first, then one pair per present scalar in schema order. -/
def poList (r : Inst) : List (URIRef × RDFNode) :=
  (RDF_type, RDFNode.node (.uriref r.schema.rdf_resource)) ::
    r.schema.attrs.flatMap
      (fun p => (presentItems ((r.fields.lookup p.1).getD (.atom .vnone))).map
        (fun a => (p.2.ref, leafObj p.2 a)))

/-- The builtins dict the decoder hands to msgspec.convert: the id string
first, then one entry per field that contributed a statement. -/
def builtAttrs (r : Inst) : List (String × PyValue) :=
  ("id", PyValue.atom (.vstr r.id)) ::
    r.schema.attrs.flatMap
      (fun p => builtEntry p ((r.fields.lookup p.1).getD (.atom .vnone)))

/-- The model class of the spec Person example: lastName and knows carry
their declared defaults, the other fields are required. -/
def meModel : ModelCls :=
  ⟨personSchema,
    [("firstName", Option.none), ("lastName", some (.atom .vnone)),
     ("birthday", Option.none), ("knows", some (.list []))]⟩

/-- A deterministic fresh-name supply for concrete evaluations. -/
def fresh0 : Nat → String := fun k => "n" ++ toString k

/-- The Person schema of the session scenario: a literal field and a repeated
field carrying the reference-target marker. -/
def personSchemaS : Schema :=
  ⟨FOAF_Person,
    [("firstName", mkField FOAF_firstName),
     ("knows", ⟨FOAF_knows, Option.none, true, true, some FOAF_Person⟩)]⟩

/-- The referenced record B of the session scenario. -/
def instB : Inst :=
  ⟨"http://example.org/B", personSchemaS,
    [("firstName", .atom (.vstr "Bee")), ("knows", .list [])]⟩

/-- The referencing record A of the session scenario: A knows B. -/
def instA : Inst :=
  ⟨"http://example.org/A", personSchemaS,
    [("firstName", .atom (.vstr "Ay")), ("knows", .list [.vstr "http://example.org/B"])]⟩

/-- A registry holding both records of the session scenario. -/
def regAB : RegistryState :=
  ⟨[(FOAF_Person, personSchemaS)],
   [(FOAF_Person, [(instA.ID, instA), (instB.ID, instB)])]⟩

/-- An empty session. -/
def sess0 : SessionState := ⟨[], []⟩

/-- C9: make_ref is idempotent: an already constructed identifier comes back
unchanged, and therefore applying make_ref to the result of make_ref gives
that result for every valid input, whatever fresh names the two calls hold. -/
theorem make_ref_idempotent (f1 f2 : String) (x : IdentNode)
    (y : Option (IdentNode ⊕ String)) :
    make_ref f2 (some (Sum.inl x)) = x
    ∧ make_ref f2 (some (Sum.inl (make_ref f1 y))) = make_ref f1 y :=
  ⟨rfl, rfl⟩

/-- C10: with raise_error_if_missing off, get_key_or_attribute never raises:
it returns the attribute value when the object has the attribute, otherwise
the dict entry when the object is a dict holding the key, and None
otherwise; attribute lookup takes precedence over the dict entry. -/
theorem get_key_or_attribute_total (field : String) (obj : PyObject) :
    get_key_or_attribute field obj false =
      .ok (match obj.attrs.lookup field with
           | some v => some v
           | Option.none =>
             match obj.dict with
             | some d => d.lookup field
             | Option.none => Option.none) := by
  unfold get_key_or_attribute
  rcases h1 : obj.attrs.lookup field with _ | v
  · rcases h2 : obj.dict with _ | d
    · simp [h1, h2]
    · rcases h3 : d.lookup field with _ | v <;> simp [h1, h2, h3]
  · simp [h1]

/-- C4: the full-mode check of describe_attrs compares the record field set
with the schema field set without removing the identifier field, so a struct
carrying the id slot fails the check although its field set minus id equals
the schema field set; the sibling validate_schema, which discards id from
both sides as the claim states, accepts the same shape. -/
theorem describe_attrs_full_id_divergence :
    describe_attrs (.struct ["id", "firstName"]) personSchema1 .full = .ok false
    ∧ eqSetB (removeName "id" ["id", "firstName"]) personSchema1.fields = true
    ∧ describe_attrs (.struct ["firstName"]) personSchema1 .full = .ok true
    ∧ validate_schema (.annotated ["id", "firstName"]) personSchema1 = .ok () := by decide

/-- C2: Codec.encode_to_triple raises AnnotationError when a non-repeat field
holds a multi-element container and encodes a single scalar in the same field
without error, but the graph-snapshot encoder from_struct silently flattens
the same container into one triple per element and raises nothing. -/
theorem cardinality_contract_divergence (fresh : Nat → String) :
    encode_to_triple fresh tagsInst = .error .annotationError
    ∧ encode_to_triple fresh tagsScalarInst =
        .ok [(.uriref "http://example.org/t", "./tags", .lit (.vstr "a") Option.none)]
    ∧ from_struct tagsInst Option.none Option.none =
        .ok [(.uriref "http://example.org/t", RDF_type, .node (.uriref FOAF_Person)),
             (.uriref "http://example.org/t", "./tags", .lit (.vstr "a") Option.none),
             (.uriref "http://example.org/t", "./tags", .lit (.vstr "b") Option.none)] :=
  ⟨rfl, rfl, by decide⟩

/-- C3: from_struct emits for the quickstart record me exactly one is-a
statement, one statement per present value and nothing for the none-valued
and empty fields, as the claim states; Codec.encode_to_triple on a record
with a none-valued field emits no is-a statement at all and a spurious None
literal for the none-valued field. -/
theorem closing_triple_divergence (fresh : Nat → String) :
    from_struct meInst Option.none Option.none =
      .ok [(.uriref "http://example.org/me", RDF_type, .node (.uriref FOAF_Person)),
           (.uriref "http://example.org/me", FOAF_firstName, .lit (.vstr "Me") Option.none),
           (.uriref "http://example.org/me", FOAF_birthday,
             .lit (.vdate 2015 10 10) (some (.uri XSD_date)))]
    ∧ encode_to_triple fresh meInstNone =
        .ok [(.uriref "http://example.org/me", FOAF_firstName, .lit (.vstr "Me") Option.none),
             (.uriref "http://example.org/me", FOAF_lastName, .lit Scalar.vnone Option.none)] :=
  ⟨by decide, rfl⟩

/-- C6: the appnlib derivation rejects every union with more than one
non-null member, with or without a null member; the earlier base.py variant
rejects only the unions without a null member and returns a FieldInfo for a
union of two non-null types and None. -/
theorem union_shape_divergence :
    field_info_from_annotations "name" "Class"
        (.union [.plain .tint, .plain .tstr]) "./" = .error .typeError
    ∧ field_info_from_annotations "name" "Class"
        (.union [.plain .tint, .plain .tstr, .plain .tnone]) "./" = .error .typeError
    ∧ field_info_from_annotations_base "name" "Class"
        (.union [.plain .tint, .plain .tstr]) "./" = .error .annotationError
    ∧ field_info_from_annotations_base "name" "Class"
        (.union [.plain .tint, .plain .tstr, .plain .tnone]) "./" =
        .ok ⟨"./name", some (.uri XSD_string), false, false, Option.none⟩ := by decide

/-- C5 counterexample: with the super-schema registered first, registering
its sub-schema under the subclass policy stores the super-schema, not the
sub-schema the claim names. -/
theorem subclass_policy_counterexample :
    is_sub_schema schemaSubA schemaSuperB = true
    ∧ is_sub_schema schemaSuperB schemaSubA = false
    ∧ register_schema cfgSubclass stWithB schemaSubA = (Option.none, stWithB)
    ∧ stWithB.schema_dict.lookup schemaSubA.rdf_resource = some schemaSuperB
    ∧ schemaSuperB ≠ schemaSubA := by decide

/-- C5 amended: under the subclass policy, a conflicting registration keeps
whichever schema the other one is a sub-schema of: the stored entry becomes
the earlier schema when the new one is its sub-schema, the new schema when
the earlier one is its sub-schema, and IntegrityError is raised with the
state untouched when neither is a sub-schema of the other. -/
theorem subclass_policy_keeps_super_schema (cfg : RegistryConfig) (st : RegistryState)
    (obj prev : Schema)
    (hcfg : cfg.on_conflict_schema = .subclass)
    (hprev : st.schema_dict.lookup obj.rdf_resource = some prev) :
    (is_sub_schema obj prev = true →
      register_schema cfg st obj =
        (Option.none, { st with schema_dict := aset st.schema_dict obj.rdf_resource prev }))
    ∧ (is_sub_schema obj prev = false → is_sub_schema prev obj = true →
      register_schema cfg st obj =
        (Option.none, { st with schema_dict := aset st.schema_dict obj.rdf_resource obj }))
    ∧ (is_sub_schema obj prev = false → is_sub_schema prev obj = false →
      register_schema cfg st obj = (some .integrityError, st)) := by
  refine ⟨fun h1 => ?_, fun h1 h2 => ?_, fun h1 h2 => ?_⟩ <;>
    simp [register_schema, handle_conflict_schema, hprev, hcfg, h1] <;>
    simp [*]

theorem subclass_policy_keeps_super_schema_witness :
    register_schema cfgSubclass stWithB schemaSubA =
      (Option.none,
        { stWithB with schema_dict := aset stWithB.schema_dict schemaSubA.rdf_resource schemaSuperB }) :=
  (subclass_policy_keeps_super_schema cfgSubclass stWithB schemaSubA schemaSuperB
    (by decide) (by decide)).1 (by decide)

/-- C8: under the raise identifier policy, registering an instance whose
resource and identifier are already taken raises IntegrityError and returns
the registry state unchanged, so the previously registered instance is still
there. -/
theorem register_instance_raise_leaves_state (cfg : RegistryConfig) (st : RegistryState)
    (inst : Inst) (imap : List (IdentNode × Inst)) (old : Inst)
    (hcfg : cfg.on_confict_identifier = .raise)
    (hres : st.instance_dict.lookup inst.rdf_resource = some imap)
    (hold : imap.lookup inst.ID = some old) :
    register_instance cfg st inst = (some .integrityError, st)
    ∧ (register_instance cfg st inst).2.instance_dict.lookup inst.rdf_resource = some imap
    ∧ imap.lookup inst.ID = some old := by
  have hmain : register_instance cfg st inst = (some .integrityError, st) := by
    simp [register_instance, register_instance_fuel, hres, hold,
      handle_conflict_instance, hcfg]
  exact ⟨hmain, by rw [hmain]; exact hres, hold⟩

theorem register_instance_raise_witness :
    register_instance cfgRaiseId stWithMe meInstClash = (some .integrityError, stWithMe) :=
  (register_instance_raise_leaves_state cfgRaiseId stWithMe meInstClash
    [(meInstBasic.ID, meInstBasic)] meInstBasic (by decide) (by decide) (by decide)).1

theorem mem_graphAdd {g : List RDFTriple} {t x : RDFTriple} :
    x ∈ graphAdd g t ↔ x ∈ g ∨ x = t := by
  unfold graphAdd
  cases hc : g.contains t with
  | false => simp
  | true =>
    have hm : t ∈ g := by simpa using hc
    simp only [if_pos rfl]
    constructor
    · exact fun h => Or.inl h
    · rintro (h | rfl)
      · exact h
      · exact hm

theorem mem_graphAddAll {g : List RDFTriple} {ts : List RDFTriple} {x : RDFTriple} :
    x ∈ graphAddAll g ts ↔ x ∈ g ∨ x ∈ ts := by
  induction ts generalizing g with
  | nil => simp [graphAddAll]
  | cons t rest ih =>
    show x ∈ graphAddAll (graphAdd g t) rest ↔ _
    rw [ih, mem_graphAdd]
    simp [or_assoc]

theorem nodup_graphAdd {g : List RDFTriple} (h : g.Nodup) (t : RDFTriple) :
    (graphAdd g t).Nodup := by
  unfold graphAdd
  cases hc : g.contains t with
  | true => simpa using h
  | false =>
    have hm : t ∉ g := by simpa using hc
    simp [List.nodup_append, h, hm]

theorem nodup_graphAddAll {g : List RDFTriple} (h : g.Nodup) (ts : List RDFTriple) :
    (graphAddAll g ts).Nodup := by
  induction ts generalizing g with
  | nil => simpa [graphAddAll]
  | cons t rest ih => exact ih (nodup_graphAdd h t)

theorem graphAdd_mem_id {g : List RDFTriple} {t : RDFTriple} (h : t ∈ g) :
    graphAdd g t = g := by
  unfold graphAdd
  simp [h]

theorem graphAddAll_subset_id {g : List RDFTriple} {ts : List RDFTriple}
    (h : ∀ t ∈ ts, t ∈ g) : graphAddAll g ts = g := by
  induction ts with
  | nil => rfl
  | cons t rest ih =>
    show graphAddAll (graphAdd g t) rest = g
    rw [graphAdd_mem_id (h t (by simp))]
    exact ih (fun x hx => h x (by simp [hx]))

theorem session_fold_skip (fresh : Nat → String) (reg : RegistryState) (A : Inst)
    (l : List (String × FieldInfo)) (acc : SessionState × Nat)
    (h : ∀ p ∈ l, p.2.resource_ref = Option.none) :
    l.foldlM (session_add_field fresh reg A) acc = Except.ok acc := by
  induction l generalizing acc with
  | nil => rfl
  | cons p rest ih =>
    have hp : p.2.resource_ref = Option.none := h p (by simp)
    rw [List.foldlM_cons]
    have hstep : session_add_field fresh reg A acc p = Except.ok acc := by
      unfold session_add_field
      rw [hp]
    rw [hstep]
    show rest.foldlM (session_add_field fresh reg A) acc = Except.ok acc
    exact ih acc (fun q hq => h q (by simp [hq]))

theorem except_bind_ok {ε α β : Type} (a : α) (f : α → Except ε β) :
    ((Except.ok a : Except ε α) >>= f) = f a := rfl

theorem except_map_ok {ε α β : Type} (a : α) (f : α → β) :
    ((Except.ok a : Except ε α).map f) = .ok (f a) := rfl

theorem countTriple_bridge (l : List RDFTriple) (t : RDFTriple) :
    l.count t = @List.count RDFTriple instBEqOfDecidableEq t l := by
  induction l with
  | nil => rfl
  | cons a rest ih =>
    rw [List.count_cons, @List.count_cons RDFTriple instBEqOfDecidableEq, ih]
    congr 1
    by_cases h : a = t
    · subst h
      have h1 : (a == a) = true := beq_self_eq_true a
      have h2 : (@BEq.beq RDFTriple instBEqOfDecidableEq a a) = true := by
        simp [instBEqOfDecidableEq]
      rw [h1, h2]
    · have h1 : (a == t) = false := beq_eq_false_iff_ne.mpr h
      have h2 : (@BEq.beq RDFTriple instBEqOfDecidableEq a t) = false := by
        simp [instBEqOfDecidableEq, h]
      rw [h1, h2]

/-- C7: for registered records A and B where A holds the identifier of B in a
reference-target field, session.add of A leaves the sink holding the triples
of A and of B exactly once each, and calling add for A a second time returns
the very same session state, the per-session already-added set preventing a
second resolution of B. -/
theorem session_add_reference_once
    (fresh : Nat → String) (reg : RegistryState) (sInit : SessionState)
    (A B : Inst) (pre post : List (String × FieldInfo))
    (kname : String) (kinfo : FieldInfo) (res : URIRef) (bid : String)
    (ta tb : List RDFTriple)
    (hattrs : A.schema.attrs = pre ++ (kname, kinfo) :: post)
    (hpre : ∀ p ∈ pre, p.2.resource_ref = Option.none)
    (hpost : ∀ p ∈ post, p.2.resource_ref = Option.none)
    (hk : kinfo.resource_ref = some res)
    (hval : A.fields.lookup kname = some (.list [.vstr bid]))
    (hreg : get_instance reg res (make_ref "" (some (Sum.inr bid))) = .ok B)
    (hencA : encode_to_triple fresh A = .ok ta)
    (hencB : encode_to_triple fresh B = .ok tb)
    (hnodup : sInit.graph.Nodup)
    (hnew : make_ref "" (some (Sum.inr bid)) ∉ sInit.instances) :
    session_add fresh reg sInit A =
      .ok ⟨graphAddAll (graphAddAll sInit.graph ta) tb,
           sInit.instances ++ [make_ref "" (some (Sum.inr bid))]⟩
    ∧ session_add fresh reg
        ⟨graphAddAll (graphAddAll sInit.graph ta) tb,
         sInit.instances ++ [make_ref "" (some (Sum.inr bid))]⟩ A =
      .ok ⟨graphAddAll (graphAddAll sInit.graph ta) tb,
           sInit.instances ++ [make_ref "" (some (Sum.inr bid))]⟩
    ∧ (graphAddAll (graphAddAll sInit.graph ta) tb).Nodup
    ∧ ∀ t ∈ ta ++ tb, (graphAddAll (graphAddAll sInit.graph ta) tb).count t = 1 := by
  set bidNode := make_ref "" (some (Sum.inr bid)) with hbid
  set sA : SessionState := ⟨graphAddAll sInit.graph ta, sInit.instances⟩ with hsA
  set g1 : List RDFTriple := graphAddAll (graphAddAll sInit.graph ta) tb with hg1
  set s1 : SessionState := ⟨g1, sInit.instances ++ [bidNode]⟩ with hs1
  have hskip_pre : ∀ acc, pre.foldlM (session_add_field fresh reg A) acc = Except.ok acc :=
    fun acc => session_fold_skip fresh reg A pre acc hpre
  have hskip_post : ∀ acc, post.foldlM (session_add_field fresh reg A) acc = Except.ok acc :=
    fun acc => session_fold_skip fresh reg A post acc hpost
  have h_add0 : session_add_dataclass fresh sInit A = .ok sA := by
    simp [session_add_dataclass, hencA, except_map_ok, hsA]
  have hcontains0 : sA.instances.contains bidNode = false := by
    simp [hsA]
    exact hnew
  have h_refstep : session_add_ref_value fresh reg res (sA, 0) (.vstr bid) = .ok (s1, 0) := by
    simp only [session_add_ref_value, make_ref_scalar, except_bind_ok, ← hbid, hcontains0,
      Bool.false_eq_true, if_false, hreg, session_add_dataclass, hencB, except_map_ok]
  have h_field_step :
      session_add_field fresh reg A (sA, 0) (kname, kinfo) = .ok (s1, 0) := by
    simp only [session_add_field, hk, hval, except_bind_ok, List.foldlM_cons,
      List.foldlM_nil, h_refstep]
    rfl
  have compute1 :
      A.schema.attrs.foldlM (session_add_field fresh reg A) (sA, 0) = .ok (s1, 0) := by
    rw [hattrs, List.foldlM_append, hskip_pre (sA, 0), except_bind_ok,
      List.foldlM_cons, h_field_step, except_bind_ok, hskip_post (s1, 0)]
  have first : session_add fresh reg sInit A = .ok s1 := by
    simp only [session_add, h_add0, except_bind_ok, compute1]
  have hta_sub : ∀ t ∈ ta, t ∈ g1 := by
    intro t ht
    rw [hg1, mem_graphAddAll]
    exact Or.inl (mem_graphAddAll.mpr (Or.inr ht))
  have h_absorb : graphAddAll g1 ta = g1 := graphAddAll_subset_id hta_sub
  have h_add1 : session_add_dataclass fresh s1 A = .ok s1 := by
    simp [session_add_dataclass, hencA, except_map_ok, hs1, h_absorb]
  have hcontains1 : s1.instances.contains bidNode = true := by
    simp [hs1]
  have h_refstep1 : session_add_ref_value fresh reg res (s1, 0) (.vstr bid) = .ok (s1, 0) := by
    simp only [session_add_ref_value, make_ref_scalar, except_bind_ok, ← hbid, hcontains1,
      if_true]
  have h_field_step1 :
      session_add_field fresh reg A (s1, 0) (kname, kinfo) = .ok (s1, 0) := by
    simp only [session_add_field, hk, hval, except_bind_ok, List.foldlM_cons,
      List.foldlM_nil, h_refstep1]
    rfl
  have compute2 :
      A.schema.attrs.foldlM (session_add_field fresh reg A) (s1, 0) = .ok (s1, 0) := by
    rw [hattrs, List.foldlM_append, hskip_pre (s1, 0), except_bind_ok,
      List.foldlM_cons, h_field_step1, except_bind_ok, hskip_post (s1, 0)]
  have second : session_add fresh reg s1 A = .ok s1 := by
    simp only [session_add, h_add1, except_bind_ok, compute2]
  have hnodup1 : g1.Nodup := nodup_graphAddAll (nodup_graphAddAll hnodup ta) tb
  refine ⟨first, second, hnodup1, ?_⟩
  intro t ht
  rcases List.mem_append.mp ht with h | h
  · rw [countTriple_bridge]
    exact List.count_eq_one_of_mem hnodup1 (hta_sub t h)
  · rw [countTriple_bridge]
    refine List.count_eq_one_of_mem hnodup1 ?_
    rw [hg1, mem_graphAddAll]
    exact Or.inr h

theorem session_add_reference_once_witness :
    session_add fresh0 regAB sess0 instA =
      .ok ⟨graphAddAll (graphAddAll sess0.graph
            [(IdentNode.uriref "http://example.org/A", FOAF_firstName,
               RDFNode.lit (.vstr "Ay") Option.none),
             (IdentNode.uriref "http://example.org/A", FOAF_knows,
               RDFNode.lit (.vstr "http://example.org/B") Option.none)])
            [(IdentNode.uriref "http://example.org/B", FOAF_firstName,
               RDFNode.lit (.vstr "Bee") Option.none)],
           sess0.instances ++ [make_ref "" (some (Sum.inr "http://example.org/B"))]⟩ :=
  (session_add_reference_once fresh0 regAB sess0 instA instB
    [("firstName", mkField FOAF_firstName)] [] "knows"
    ⟨FOAF_knows, Option.none, true, true, some FOAF_Person⟩ FOAF_Person "http://example.org/B"
    [(IdentNode.uriref "http://example.org/A", FOAF_firstName,
       RDFNode.lit (.vstr "Ay") Option.none),
     (IdentNode.uriref "http://example.org/A", FOAF_knows,
       RDFNode.lit (.vstr "http://example.org/B") Option.none)]
    [(IdentNode.uriref "http://example.org/B", FOAF_firstName,
       RDFNode.lit (.vstr "Bee") Option.none)]
    (by decide) (by decide) (by decide) (by decide) (by decide) (by decide)
    (by decide) (by decide) (by decide) (by decide)).1

theorem lookup_mem {α β : Type} [BEq α] [LawfulBEq α] {l : List (α × β)} {k : α} {v : β}
    (h : l.lookup k = some v) : (k, v) ∈ l := by
  induction l with
  | nil => simp [List.lookup] at h
  | cons p rest ih =>
    rw [List.lookup_cons] at h
    by_cases hk : k == p.1
    · simp [hk] at h
      have : k = p.1 := eq_of_beq hk
      subst this
      subst h
      exact List.mem_cons_self _ _
    · simp [hk] at h
      exact List.mem_cons_of_mem _ (ih h)

theorem lookup_of_mem_nodup {α β : Type} [BEq α] [LawfulBEq α] {l : List (α × β)}
    (hN : (l.map Prod.fst).Nodup) {k : α} {v : β} (h : (k, v) ∈ l) :
    l.lookup k = some v := by
  induction l with
  | nil => cases h
  | cons p rest ih =>
    rw [List.map_cons, List.nodup_cons] at hN
    rcases List.mem_cons.mp h with rfl | hmem
    · simp [List.lookup_cons]
    · have hne : ¬(k == p.1) := by
        intro hb
        have hkp : k = p.1 := eq_of_beq hb
        refine hN.1 (List.mem_map.mpr ⟨(k, v), hmem, ?_⟩)
        simp [hkp]
      rw [List.lookup_cons]
      simp [hne]
      exact ih hN.2 hmem

theorem graphAdd_not_mem {g : List RDFTriple} {t : RDFTriple} (h : t ∉ g) :
    graphAdd g t = g ++ [t] := by
  unfold graphAdd
  simp [h]

theorem describer_add_scalar_eq (g : List RDFTriple) (sid : IdentNode) (info : FieldInfo)
    (a : Scalar) :
    describer_add_scalar g sid info a =
      if a = .vnone then g else graphAdd g (leafTriple sid info a) := by
  unfold describer_add_scalar leafTriple leafObj describer_rel describer_value
  by_cases h : a = Scalar.vnone
  · simp [h]
  · simp only [h, if_false]
    rcases info.range with _ | u | t
    · rfl
    · rfl
    · rfl

theorem describer_fold_items (sid : IdentNode) (info : FieldInfo) :
    ∀ (items : List Scalar) (g : List RDFTriple),
      (fieldTriples sid info (.list items)).Nodup →
      (∀ t ∈ fieldTriples sid info (.list items), t ∉ g) →
      items.foldl (fun g' a => describer_add_scalar g' sid info a) g
        = g ++ fieldTriples sid info (.list items)
  | [], g, _, _ => by simp [fieldTriples, presentItems]
  | a :: rest, g, hN, hg => by
    rw [List.foldl_cons, describer_add_scalar_eq]
    by_cases ha : a = Scalar.vnone
    · have hsame :
          fieldTriples sid info (.list (a :: rest)) = fieldTriples sid info (.list rest) := by
        simp [fieldTriples, presentItems, List.filter_cons, ha]
      rw [hsame] at hN hg
      simp only [ha, if_pos rfl]
      exact describer_fold_items sid info rest g hN hg
    · have hsplit :
          fieldTriples sid info (.list (a :: rest)) =
            leafTriple sid info a :: fieldTriples sid info (.list rest) := by
        simp [fieldTriples, presentItems, List.filter_cons, ha]
      rw [hsplit] at hN hg
      rw [List.nodup_cons] at hN
      simp only [ha, if_false]
      rw [graphAdd_not_mem (hg _ (by simp))]
      rw [describer_fold_items sid info rest (g ++ [leafTriple sid info a]) hN.2 ?disj]
      · rw [hsplit, List.append_assoc]
        rfl
      case disj =>
        intro t ht
        rw [List.mem_append]
        rintro (h1 | h2)
        · exact hg t (by simp [ht]) h1
        · rw [List.mem_singleton] at h2
          subst h2
          exact hN.1 ht

theorem describer_add_value_eq (sid : IdentNode) (info : FieldInfo) (v : PyValue)
    (g : List RDFTriple)
    (hN : (fieldTriples sid info v).Nodup)
    (hg : ∀ t ∈ fieldTriples sid info v, t ∉ g) :
    describer_add_value g sid info v = g ++ fieldTriples sid info v := by
  cases v with
  | atom a =>
    show describer_add_scalar g sid info a = _
    rw [describer_add_scalar_eq]
    by_cases ha : a = Scalar.vnone
    · simp [ha, fieldTriples, presentItems]
    · have : fieldTriples sid info (.atom a) = [leafTriple sid info a] := by
        simp [fieldTriples, presentItems, ha]
      rw [this] at hg ⊢
      simp [ha]
      rw [graphAdd_not_mem (hg _ (by simp))]
  | list items =>
    show items.foldl (fun g' a => describer_add_scalar g' sid info a) g = _
    exact describer_fold_items sid info items g hN hg

theorem from_struct_fold (r : Inst) (sid : IdentNode) :
    ∀ (attrsS : List (String × FieldInfo)) (g : List RDFTriple),
      (∀ p ∈ attrsS, (r.fields.lookup p.1).isSome) →
      (attrsS.flatMap
        (fun p => fieldTriples sid p.2 ((r.fields.lookup p.1).getD (.atom .vnone)))).Nodup →
      (∀ t ∈ attrsS.flatMap
        (fun p => fieldTriples sid p.2 ((r.fields.lookup p.1).getD (.atom .vnone))), t ∉ g) →
      attrsS.foldlM
        (fun g' p =>
          match r.fields.lookup p.1 with
          | some value => Except.ok (describer_add_value g' sid p.2 value)
          | Option.none => Except.error PyError.keyError) g
      = .ok (g ++ attrsS.flatMap
          (fun p => fieldTriples sid p.2 ((r.fields.lookup p.1).getD (.atom .vnone))))
  | [], g, _, _, _ => by simp; rfl
  | p :: rest, g, hsome, hN, hg => by
    rcases hv : r.fields.lookup p.1 with _ | v
    · have := hsome p (by simp)
      rw [hv] at this
      cases this
    · rw [List.foldlM_cons]
      have hblock :
          fieldTriples sid p.2 ((r.fields.lookup p.1).getD (.atom .vnone)) =
            fieldTriples sid p.2 v := by rw [hv]; rfl
      rw [List.flatMap_cons, hblock] at hN hg
      rw [List.nodup_append] at hN
      have hstep : describer_add_value g sid p.2 v = g ++ fieldTriples sid p.2 v :=
        describer_add_value_eq sid p.2 v g hN.1 (fun t ht => hg t (by simp [ht]))
      rw [hv]
      show rest.foldlM _ (describer_add_value g sid p.2 v) = _
      rw [hstep]
      rw [from_struct_fold r sid rest (g ++ fieldTriples sid p.2 v)
        (fun q hq => hsome q (by simp [hq])) hN.2.1 ?hg2]
      · rw [List.flatMap_cons, hblock, List.append_assoc]
      case hg2 =>
        intro t ht
        rw [List.mem_append]
        rintro (h1 | h2)
        · exact hg t (by simp [ht]) h1
        · exact hN.2.2 h2 ht

theorem scalarMatchesRange_ne_vnone {rng : Option RangeTy} {a : Scalar}
    (h : scalarMatchesRange rng a = true) : a ≠ Scalar.vnone := by
  intro ha
  subst ha
  rcases rng with _ | u | t
  · exact (Bool.false_ne_true h).elim
  · exact (Bool.false_ne_true h).elim
  · exact (Bool.false_ne_true h).elim

theorem idref_range_shape {t : URIRef} {a : Scalar}
    (h : scalarMatchesRange (some (.idref t)) a = true) :
    ∃ s, a = .vstr s ∧ (s == "") = false ∧ strStartsWith s "_:" = false := by
  cases a with
  | vstr s =>
    refine ⟨s, rfl, ?_, ?_⟩
    · have hh : (!(s == "") && !(strStartsWith s "_:")) = true := h
      simp at hh
      simp [hh.1]
    · have hh : (!(s == "") && !(strStartsWith s "_:")) = true := h
      simp at hh
      exact hh.2
  | vnone => exact (Bool.false_ne_true h).elim
  | vint n => exact (Bool.false_ne_true h).elim
  | vbool b => exact (Bool.false_ne_true h).elim
  | vdate y m d => exact (Bool.false_ne_true h).elim

theorem make_ref_str_uriref {s : String} (h : strStartsWith s "_:" = false) :
    make_ref "" (some (Sum.inr s)) = .uriref s := by
  unfold make_ref
  simp [h]

theorem leafObj_inj {info : FieldInfo} {a b : Scalar}
    (ha : scalarMatchesRange info.range a = true)
    (hb : scalarMatchesRange info.range b = true)
    (h : leafObj info a = leafObj info b) : a = b := by
  unfold leafObj at h
  rcases hr : info.range with _ | u | t
  · rw [hr] at h
    exact (RDFNode.lit.injEq _ _ _ _).mp h |>.1
  · rw [hr] at h
    exact (RDFNode.lit.injEq _ _ _ _).mp h |>.1
  · rw [hr] at ha hb h
    rcases idref_range_shape ha with ⟨s, rfl, hs1, hs2⟩
    rcases idref_range_shape hb with ⟨s2, rfl, hs3, hs4⟩
    simp only [Scalar.pyStr] at h
    rw [make_ref_str_uriref hs2, make_ref_str_uriref hs4] at h
    simp at h
    simp [h]

theorem mem_fieldTriples {sid : IdentNode} {info : FieldInfo} {v : PyValue} {t : RDFTriple}
    (h : t ∈ fieldTriples sid info v) : t.1 = sid ∧ t.2.1 = info.ref := by
  unfold fieldTriples leafTriple at h
  rcases List.mem_map.mp h with ⟨a, _, rfl⟩
  exact ⟨rfl, rfl⟩

theorem fieldInRange_presentItems {info : FieldInfo} {v : PyValue}
    (h : fieldInRange info v = true) :
    ∀ a ∈ presentItems v, scalarMatchesRange info.range a = true := by
  intro a ha
  cases v with
  | atom b =>
    unfold presentItems at ha
    by_cases hb : b = Scalar.vnone
    · simp [hb] at ha
    · simp [hb] at ha
      have hh : (b == Scalar.vnone || (!info.repeats && scalarMatchesRange info.range b)) = true := h
      simp [hb] at hh
      rw [ha]
      exact hh.2
  | list items =>
    unfold presentItems at ha
    have hh : (info.repeats && items.all (fun a => scalarMatchesRange info.range a)) = true := h
    simp at hh
    exact hh.2 a (List.mem_of_mem_filter ha)

theorem fieldTriples_nodup {sid : IdentNode} {info : FieldInfo} {v : PyValue}
    (hin : fieldInRange info v = true)
    (hdup : match v with
            | .list items => items.Nodup
            | _ => True) :
    (fieldTriples sid info v).Nodup := by
  unfold fieldTriples
  refine List.Nodup.map_on ?_ ?_
  · intro a ha b hb hab
    have h1 := fieldInRange_presentItems hin a ha
    have h2 := fieldInRange_presentItems hin b hb
    unfold leafTriple at hab
    have hobj : leafObj info a = leafObj info b := by
      have := congrArg (fun q : RDFTriple => q.2.2) hab
      simpa using this
    exact leafObj_inj h1 h2 hobj
  · cases v with
    | atom a =>
      unfold presentItems
      by_cases hb : a = Scalar.vnone <;> simp [hb]
    | list items => exact List.Nodup.filter _ hdup

theorem withinRanges_field {r : Inst} (h : withinRanges r = true)
    {p : String × FieldInfo} (hp : p ∈ r.schema.attrs) :
    ∃ v, r.fields.lookup p.1 = some v ∧ fieldInRange p.2 v = true := by
  unfold withinRanges at h
  rw [Bool.and_eq_true] at h
  rcases h with ⟨_, h2⟩
  rw [List.all_eq_true] at h2
  have hb := h2 p hp
  rcases hl : r.fields.lookup p.1 with _ | v
  · rw [hl] at hb
    exact (Bool.false_ne_true hb).elim
  · rw [hl] at hb
    exact ⟨v, rfl, hb⟩

theorem withinRanges_id {r : Inst} (h : withinRanges r = true) : (r.id == "") = false := by
  unfold withinRanges at h
  rw [Bool.and_eq_true] at h
  simpa using h.1

theorem repeatListsNodup_field {r : Inst} (h : repeatListsNodup r = true)
    {n : String} {items : List Scalar} (hmem : (n, PyValue.list items) ∈ r.fields) :
    items.Nodup := by
  unfold repeatListsNodup at h
  rw [List.all_eq_true] at h
  have hb := h _ hmem
  simp only at hb
  have : items.dedup = items := eq_of_beq hb
  exact List.dedup_eq_self.mp this

theorem schemaSane_parts {s : Schema} (h : schemaSane s = true) :
    (s.attrs.map Prod.fst).Nodup
    ∧ (s.attrs.map fun p => p.2.ref).Nodup
    ∧ RDF_type ∉ (s.attrs.map fun p => p.2.ref)
    ∧ "id" ∉ s.attrs.map Prod.fst := by
  unfold schemaSane at h
  rw [Bool.and_eq_true, Bool.and_eq_true, Bool.and_eq_true] at h
  rcases h with ⟨⟨⟨h1, h2⟩, h3⟩, h4⟩
  refine ⟨?_, ?_, ?_, ?_⟩
  · exact List.dedup_eq_self.mp (eq_of_beq h1)
  · exact List.dedup_eq_self.mp (eq_of_beq h2)
  · simpa using h3
  · simpa using h4

theorem emit_flatMap_nodup (r : Inst) (sid : IdentNode) :
    ∀ attrsS : List (String × FieldInfo),
      (attrsS.map fun p => p.2.ref).Nodup →
      (∀ p ∈ attrsS,
        (fieldTriples sid p.2 ((r.fields.lookup p.1).getD (.atom .vnone))).Nodup) →
      (attrsS.flatMap fun p =>
        fieldTriples sid p.2 ((r.fields.lookup p.1).getD (.atom .vnone))).Nodup
  | [], _, _ => by simp
  | p :: rest, hrefs, hblocks => by
    rw [List.flatMap_cons, List.nodup_append]
    rw [List.map_cons, List.nodup_cons] at hrefs
    refine ⟨hblocks p (by simp), emit_flatMap_nodup r sid rest hrefs.2
      (fun q hq => hblocks q (by simp [hq])), ?_⟩
    intro t ht1 ht2
    rcases List.mem_flatMap.mp ht2 with ⟨q, hq, htq⟩
    have e1 := (mem_fieldTriples ht1).2
    have e2 := (mem_fieldTriples htq).2
    exact hrefs.1 (List.mem_map.mpr ⟨q, hq, by rw [← e2, e1]⟩)

theorem emitList_nodup {r : Inst}
    (hsane : schemaSane r.schema = true)
    (hrange : withinRanges r = true)
    (hnodup : repeatListsNodup r = true) :
    (emitList r).Nodup := by
  unfold emitList
  rw [List.nodup_cons]
  rcases schemaSane_parts hsane with ⟨_, hrefs, htype, _⟩
  constructor
  · intro hmem
    rcases List.mem_flatMap.mp hmem with ⟨q, hq, htq⟩
    have e := (mem_fieldTriples htq).2
    exact htype (List.mem_map.mpr ⟨q, hq, by rw [← e]⟩)
  · refine emit_flatMap_nodup r r.IDm r.schema.attrs hrefs ?_
    intro p hp
    rcases withinRanges_field hrange hp with ⟨v, hl, hin⟩
    rw [hl]
    refine fieldTriples_nodup hin ?_
    cases v with
    | atom a => trivial
    | list items => exact repeatListsNodup_field hnodup (lookup_mem hl)

theorem from_struct_emit {r : Inst}
    (hsane : schemaSane r.schema = true)
    (hrange : withinRanges r = true)
    (hnodup : repeatListsNodup r = true) :
    from_struct r Option.none Option.none = .ok (emitList r) := by
  have hN := emitList_nodup hsane hrange hnodup
  unfold emitList at hN
  rw [List.nodup_cons] at hN
  have hfold := from_struct_fold r r.IDm r.schema.attrs
    [(r.IDm, RDF_type, RDFNode.node (.uriref r.schema.rdf_resource))]
    (fun p hp => by
      rcases withinRanges_field hrange hp with ⟨v, hl, _⟩
      simp [hl])
    hN.2
    (fun t ht => by
      rw [List.mem_singleton]
      intro he
      subst he
      exact hN.1 ht)
  unfold from_struct
  simp only [except_bind_ok]
  unfold describer_rdftype graphAdd Schema.name_mapping
  simp only [List.contains, List.elem_eq_mem, List.mem_nil_iff, List.nil_append]
  rw [if_neg (by simp)]
  rw [hfold]
  rw [emitList]
  rfl

theorem IDm_uriref {r : Inst} (hid : (r.id == "") = false) : r.IDm = .uriref r.id := by
  unfold Inst.IDm make_ref_m
  simp [hid]

theorem get_subjects_emit {r : Inst} (hid : (r.id == "") = false) :
    get_subjects_ident (emitList r) (Sum.inl r.IDm) (some r.schema) = .ok [r.IDm] := by
  have hID := IDm_uriref hid
  have hident : make_ref_m "" (some (Sum.inl r.IDm)) = r.IDm := by
    rw [hID]
    unfold make_ref_m
    simp [hid]
  unfold get_subjects_ident
  rw [hident]
  have hany : (emitList r).any (fun t => t.1 == r.IDm) = true := by
    refine List.any_eq_true.mpr
      ⟨(r.IDm, RDF_type, RDFNode.node (.uriref r.schema.rdf_resource)), ?_, ?_⟩
    · unfold emitList
      exact List.mem_cons_self _ _
    · simp
  have hcont : (emitList r).contains
      ((r.IDm, RDF_type, RDFNode.node (.uriref r.schema.rdf_resource)) : RDFTriple) = true := by
    simp only [List.contains, List.elem_eq_mem, decide_eq_true_eq]
    unfold emitList
    exact List.mem_cons_self _ _
  simp [hany, hcont]
  unfold emitList
  exact List.mem_cons_self _ _

theorem emit_subjects {r : Inst} {t : RDFTriple} (ht : t ∈ emitList r) : t.1 = r.IDm := by
  unfold emitList at ht
  rcases List.mem_cons.mp ht with rfl | hmem
  · rfl
  · rcases List.mem_flatMap.mp hmem with ⟨p, _, htp⟩
    exact (mem_fieldTriples htp).1

theorem predicate_objects_emit {r : Inst}
    (hsane : schemaSane r.schema = true)
    (hrange : withinRanges r = true)
    (hnodup : repeatListsNodup r = true) :
    predicate_objects (emitList r) r.IDm = poList r := by
  unfold predicate_objects
  have hfilter : (emitList r).filter (fun t => t.1 == r.IDm) = emitList r := by
    apply List.filter_eq_self.mpr
    intro t ht
    rw [emit_subjects ht]
    simp
  rw [hfilter]
  have hmap : (emitList r).map (fun t => (t.2.1, t.2.2)) = poList r := by
    unfold emitList poList
    rw [List.map_cons]
    congr 1
    rw [List.map_flatMap]
    congr 1
    funext p
    unfold fieldTriples
    rw [List.map_map]
    rfl
  have hN : ((emitList r).map (fun t => (t.2.1, t.2.2))).Nodup := by
    refine List.Nodup.map_on ?_ (emitList_nodup hsane hrange hnodup)
    intro t ht u hu he
    have h1 := emit_subjects ht
    have h2 := emit_subjects hu
    rcases t with ⟨a, b, c⟩
    rcases u with ⟨a2, b2, c2⟩
    simp only at h1 h2 he
    simp only [Prod.mk.injEq] at he
    simp [h1, h2, he.1, he.2]
  rw [hmap] at hN
  rw [hmap]
  exact List.dedup_eq_self.mpr hN

theorem lookup_append_right {α β : Type} [BEq α] [LawfulBEq α] {l : List (α × β)} {k : α}
    (h : l.lookup k = Option.none) (v : β) : (l ++ [(k, v)]).lookup k = some v := by
  rw [List.lookup_append, h]
  rw [Option.none_or]
  simp [List.lookup_cons]

theorem aset_append_last {α β : Type} [BEq α] [LawfulBEq α] {l : List (α × β)} {k : α}
    (h : l.lookup k = Option.none) (v w : β) :
    aset (l ++ [(k, v)]) k w = l ++ [(k, w)] := by
  induction l with
  | nil => simp [aset]
  | cons p rest ih =>
    rw [List.lookup_cons] at h
    by_cases hk : (k == p.1) = true
    · simp [hk] at h
    · have hkf : (k == p.1) = false := by simpa using hk
      simp only [hkf, Bool.false_eq_true, if_false] at h
      have hk2 : (p.1 == k) = false :=
        beq_eq_false_iff_ne.mpr (Ne.symm (beq_eq_false_iff_ne.mp hkf))
      rw [List.cons_append, List.cons_append]
      simp only [aset, hk2, Bool.false_eq_true, if_false]
      exact congrArg (p :: ·) (ih h)

theorem update_rdftype (v : RDFNode) (attrs : List (String × DecVal)) (schema : Schema) :
    update_attrs_from_stmt RDF_type v attrs schema = .ok attrs := by
  unfold update_attrs_from_stmt
  simp

theorem decode_repeat_start {schema : Schema} {name : String} {info : FieldInfo}
    (hne : (info.ref == RDF_type) = false)
    (href : schema.ref_mapping.lookup info.ref = some name)
    (hinfo : schema.attrs.lookup name = some info)
    (hrep : info.repeats = true)
    {attrs : List (String × DecVal)} (h : attrs.lookup name = Option.none) (o : RDFNode) :
    update_attrs_from_stmt info.ref o attrs schema
      = .ok (attrs ++ [(name, DecVal.nodes [o])]) := by
  simp only [update_attrs_from_stmt, hne, Bool.false_eq_true, if_false, href, hinfo, hrep,
    if_true, h]

theorem decode_single_step {schema : Schema} {name : String} {info : FieldInfo}
    (hne : (info.ref == RDF_type) = false)
    (href : schema.ref_mapping.lookup info.ref = some name)
    (hinfo : schema.attrs.lookup name = some info)
    (hrep : info.repeats = false)
    {attrs : List (String × DecVal)} (h : attrs.lookup name = Option.none) (o : RDFNode) :
    update_attrs_from_stmt info.ref o attrs schema
      = .ok (attrs ++ [(name, DecVal.node o)]) := by
  simp only [update_attrs_from_stmt, hne, Bool.false_eq_true, if_false, href, hinfo, hrep, h]

theorem decode_repeat_fold {schema : Schema} {name : String} {info : FieldInfo}
    (hne : (info.ref == RDF_type) = false)
    (href : schema.ref_mapping.lookup info.ref = some name)
    (hinfo : schema.attrs.lookup name = some info)
    (hrep : info.repeats = true) :
    ∀ (objs : List RDFNode) (sofar : List RDFNode) (attrs : List (String × DecVal)),
      attrs.lookup name = Option.none →
      ((objs.map (fun o => (info.ref, o))).foldlM
          (fun acc po => update_attrs_from_stmt po.1 po.2 acc schema)
          (attrs ++ [(name, DecVal.nodes sofar)]))
        = .ok (attrs ++ [(name, DecVal.nodes (sofar ++ objs))])
  | [], sofar, attrs, h => by simp; rfl
  | o :: rest, sofar, attrs, h => by
    rw [List.map_cons, List.foldlM_cons]
    have hstep : update_attrs_from_stmt info.ref o (attrs ++ [(name, DecVal.nodes sofar)]) schema
        = .ok (attrs ++ [(name, DecVal.nodes (sofar ++ [o]))]) := by
      simp only [update_attrs_from_stmt, hne, Bool.false_eq_true, if_false, href, hinfo, hrep,
        if_true, lookup_append_right h]
      rw [aset_append_last h]
    rw [hstep, except_bind_ok]
    rw [decode_repeat_fold hne href hinfo hrep rest (sofar ++ [o]) attrs h]
    simp


theorem decodedEntry_lookup_ne {p : String × FieldInfo} {v : PyValue} {k : String}
    (h : (k == p.1) = false) : (decodedEntry p v).lookup k = Option.none := by
  unfold decodedEntry
  split
  · split
    · rfl
    · simp [List.lookup_cons, h]
  · split
    · simp [List.lookup_cons, h]
    · rfl

theorem decode_block {schema : Schema} {p : String × FieldInfo}
    (hne : (p.2.ref == RDF_type) = false)
    (href : schema.ref_mapping.lookup p.2.ref = some p.1)
    (hinfo : schema.attrs.lookup p.1 = some p.2)
    {v : PyValue} (hin : fieldInRange p.2 v = true)
    {attrs : List (String × DecVal)} (h : attrs.lookup p.1 = Option.none) :
    (((presentItems v).map (fun a => (p.2.ref, leafObj p.2 a))).foldlM
        (fun acc po => update_attrs_from_stmt po.1 po.2 acc schema) attrs)
      = .ok (attrs ++ decodedEntry p v) := by
  by_cases hrep : p.2.repeats = true
  · rcases hpi : presentItems v with _ | ⟨a, items⟩
    · simp [decodedEntry, hrep, hpi]
      rfl
    · rw [List.map_cons, List.foldlM_cons]
      rw [decode_repeat_start hne href hinfo hrep h (leafObj p.2 a), except_bind_ok]
      have hmm2 : (items.map fun b => (p.2.ref, leafObj p.2 b))
          = ((items.map (leafObj p.2)).map fun o => (p.2.ref, o)) := by
        rw [List.map_map]
        rfl
      rw [hmm2]
      rw [decode_repeat_fold hne href hinfo hrep (items.map (leafObj p.2)) [leafObj p.2 a]
        attrs h]
      simp [decodedEntry, hrep, hpi]
  · have hrepf : p.2.repeats = false := by simpa using hrep
    cases v with
    | atom a =>
      by_cases ha : a = Scalar.vnone
      · simp [presentItems, decodedEntry, hrepf, ha]
        rfl
      · have hpi : presentItems (PyValue.atom a) = [a] := by simp [presentItems, ha]
        rw [hpi, List.map_cons, List.foldlM_cons]
        rw [decode_single_step hne href hinfo hrepf h (leafObj p.2 a), except_bind_ok]
        simp [decodedEntry, hrepf, hpi]
        rfl
    | list items =>
      rw [fieldInRange] at hin
      rw [hrepf] at hin
      simp at hin

theorem decode_fold (r : Inst) (schema : Schema) :
    ∀ (attrsS : List (String × FieldInfo)) (attrs0 : List (String × DecVal)),
      (∀ p ∈ attrsS, (p.2.ref == RDF_type) = false
        ∧ schema.ref_mapping.lookup p.2.ref = some p.1
        ∧ schema.attrs.lookup p.1 = some p.2
        ∧ fieldInRange p.2 ((r.fields.lookup p.1).getD (.atom .vnone)) = true
        ∧ attrs0.lookup p.1 = Option.none) →
      (attrsS.map Prod.fst).Nodup →
      ((attrsS.flatMap (fun p =>
          (presentItems ((r.fields.lookup p.1).getD (.atom .vnone))).map
            (fun a => (p.2.ref, leafObj p.2 a)))).foldlM
        (fun acc po => update_attrs_from_stmt po.1 po.2 acc schema) attrs0)
      = .ok (attrs0 ++ attrsS.flatMap (fun p =>
          decodedEntry p ((r.fields.lookup p.1).getD (.atom .vnone))))
  | [], attrs0, _, _ => by simp; rfl
  | p :: rest, attrs0, hconds, hN => by
    rw [List.flatMap_cons, List.foldlM_append]
    obtain ⟨hne, href, hinfo, hin, hlook⟩ := hconds p (by simp)
    rw [decode_block hne href hinfo hin hlook, except_bind_ok]
    rw [List.map_cons, List.nodup_cons] at hN
    have hconds2 : ∀ q ∈ rest, (q.2.ref == RDF_type) = false
        ∧ schema.ref_mapping.lookup q.2.ref = some q.1
        ∧ schema.attrs.lookup q.1 = some q.2
        ∧ fieldInRange q.2 ((r.fields.lookup q.1).getD (.atom .vnone)) = true
        ∧ (attrs0 ++ decodedEntry p ((r.fields.lookup p.1).getD (.atom .vnone))).lookup q.1
            = Option.none := by
      intro q hq
      obtain ⟨h1, h2, h3, h4, h5⟩ := hconds q (by simp [hq])
      refine ⟨h1, h2, h3, h4, ?_⟩
      have hne2 : (q.1 == p.1) = false := by
        rw [beq_eq_false_iff_ne]
        intro he
        exact hN.1 (List.mem_map.mpr ⟨q, hq, he⟩)
      rw [List.lookup_append, h5, Option.none_or]
      exact decodedEntry_lookup_ne hne2
    rw [decode_fold r schema rest
      (attrs0 ++ decodedEntry p ((r.fields.lookup p.1).getD (.atom .vnone))) hconds2 hN.2]
    rw [List.flatMap_cons, List.append_assoc]

theorem enc_hook_leafObj {info : FieldInfo} {a : Scalar}
    (h : scalarMatchesRange info.range a = true) :
    enc_hook_node (leafObj info a) = .ok a := by
  unfold leafObj
  rcases hr : info.range with _ | u | t
  · rfl
  · rfl
  · rw [hr] at h
    rcases idref_range_shape h with ⟨s, rfl, hs1, hs2⟩
    simp only [Scalar.pyStr]
    rw [make_ref_str_uriref hs2]
    rfl

theorem mapM_nodes {info : FieldInfo} :
    ∀ {items : List Scalar},
      (∀ a ∈ items, scalarMatchesRange info.range a = true) →
      (items.map (leafObj info)).mapM enc_hook_node = .ok items
  | [], _ => rfl
  | a :: items, h => by
    rw [List.map_cons, List.mapM_cons]
    rw [enc_hook_leafObj (h a (by simp)), except_bind_ok]
    rw [mapM_nodes (fun b hb => h b (by simp [hb])), except_bind_ok]
    rfl

theorem presentItems_list_inrange {info : FieldInfo} {items : List Scalar}
    (h : ∀ a ∈ items, scalarMatchesRange info.range a = true) :
    presentItems (.list items) = items := by
  unfold presentItems
  apply List.filter_eq_self.mpr
  intro a ha
  have hne := scalarMatchesRange_ne_vnone (h a ha)
  simp [hne]

theorem builtins_block {p : String × FieldInfo} {v : PyValue}
    (hin : fieldInRange p.2 v = true) :
    (decodedEntry p v).mapM (fun q => (builtinVal q.2).map (fun w => (q.1, w)))
      = .ok (builtEntry p v) := by
  have hpres := fieldInRange_presentItems hin
  by_cases hrep : p.2.repeats = true
  · rcases hpi : presentItems v with _ | ⟨a, items⟩
    · simp [decodedEntry, builtEntry, hrep, hpi]
      rfl
    · simp only [decodedEntry, builtEntry, hrep, if_true, hpi]
      rw [List.mapM_cons]
      have hmap : ((a :: items).map (leafObj p.2)).mapM enc_hook_node = .ok (a :: items) :=
        mapM_nodes (fun b hb => hpres b (by rw [hpi]; exact hb))
      simp only [builtinVal]
      rw [hmap]
      rfl
  · have hrepf : p.2.repeats = false := by simpa using hrep
    rcases hpi : presentItems v with _ | ⟨a, items⟩
    · simp [decodedEntry, builtEntry, hrepf, hpi]
      rfl
    · cases items with
      | nil =>
        simp only [decodedEntry, builtEntry, hrepf, Bool.false_eq_true, if_false, hpi]
        rw [List.mapM_cons]
        have ha : enc_hook_node (leafObj p.2 a) = .ok a :=
          enc_hook_leafObj (hpres a (by rw [hpi]; simp))
        simp only [builtinVal]
        rw [ha]
        rfl
      | cons b rest =>
        simp [decodedEntry, builtEntry, hrepf, hpi]
        rfl

theorem builtins_fold (r : Inst) :
    ∀ (attrsS : List (String × FieldInfo)),
      (∀ p ∈ attrsS, fieldInRange p.2 ((r.fields.lookup p.1).getD (.atom .vnone)) = true) →
      ((attrsS.flatMap (fun p =>
          decodedEntry p ((r.fields.lookup p.1).getD (.atom .vnone)))).mapM
        (fun q => (builtinVal q.2).map (fun w => (q.1, w))))
        = .ok (attrsS.flatMap (fun p =>
            builtEntry p ((r.fields.lookup p.1).getD (.atom .vnone))))
  | [], _ => rfl
  | p :: rest, h => by
    rw [List.flatMap_cons, List.mapM_append]
    rw [builtins_block (h p (by simp)), except_bind_ok]
    rw [builtins_fold r rest (fun q hq => h q (by simp [hq])), except_bind_ok]
    rw [List.flatMap_cons]
    rfl

theorem builtEntry_lookup_ne {p : String × FieldInfo} {v : PyValue} {k : String}
    (h : (k == p.1) = false) : (builtEntry p v).lookup k = Option.none := by
  unfold builtEntry
  split
  · split
    · rfl
    · simp [List.lookup_cons, h]
  · split
    · simp [List.lookup_cons, h]
    · rfl

theorem built_flatMap_lookup_none (r : Inst) {n : String} :
    ∀ {attrsS : List (String × FieldInfo)},
      (∀ p ∈ attrsS, (n == p.1) = false) →
      (attrsS.flatMap (fun p =>
          builtEntry p ((r.fields.lookup p.1).getD (.atom .vnone)))).lookup n
        = Option.none
  | [], _ => rfl
  | p :: rest, h => by
    rw [List.flatMap_cons, List.lookup_append]
    rw [builtEntry_lookup_ne (h p (by simp)), Option.none_or]
    exact built_flatMap_lookup_none r (fun q hq => h q (by simp [hq]))

theorem builtEntry_char {p : String × FieldInfo} {v : PyValue}
    (hin : fieldInRange p.2 v = true) :
    builtEntry p v = if encodesNothing v then [] else [(p.1, v)] := by
  cases v with
  | atom a =>
    by_cases ha : a = Scalar.vnone
    · by_cases hrep : p.2.repeats = true <;>
        simp [builtEntry, presentItems, encodesNothing, ha, hrep]
    · have hh : (a == Scalar.vnone
          || (!p.2.repeats && scalarMatchesRange p.2.range a)) = true := hin
      simp [ha] at hh
      have hrepf : p.2.repeats = false := by simpa using hh.1
      simp [builtEntry, presentItems, encodesNothing, ha, hrepf]
  | list items =>
    have hh : (p.2.repeats && items.all (fun a => scalarMatchesRange p.2.range a)) = true := hin
    simp at hh
    have hpi : presentItems (.list items) = items :=
      presentItems_list_inrange (fun a ha => hh.2 a ha)
    cases items with
    | nil => simp [builtEntry, encodesNothing, hh.1, hpi]
    | cons b rest => simp [builtEntry, encodesNothing, hh.1, hpi]

theorem built_flatMap_lookup (r : Inst) :
    ∀ (attrsS : List (String × FieldInfo)) (n : String) (v : PyValue),
      (attrsS.map Prod.fst).Nodup →
      (∀ p ∈ attrsS, fieldInRange p.2 ((r.fields.lookup p.1).getD (.atom .vnone)) = true) →
      (∃ pf, pf ∈ attrsS ∧ pf.1 = n) →
      (r.fields.lookup n).getD (.atom .vnone) = v →
      (attrsS.flatMap (fun p =>
          builtEntry p ((r.fields.lookup p.1).getD (.atom .vnone)))).lookup n
        = if encodesNothing v then Option.none else some v
  | [], n, v, _, _, hex, _ => by
    rcases hex with ⟨pf, hpf, _⟩
    cases hpf
  | p :: rest, n, v, hN, hin, hex, hv => by
    rw [List.map_cons, List.nodup_cons] at hN
    rcases hex with ⟨pf, hpf, hpfn⟩
    rw [List.flatMap_cons, List.lookup_append]
    rcases List.mem_cons.mp hpf with rfl | hmem
    · rw [builtEntry_char (hin pf (by simp))]
      rw [hpfn, hv]
      by_cases hnoth : encodesNothing v = true
      · rw [if_pos hnoth]
        simp only [List.lookup]
        rw [Option.none_or, if_pos hnoth]
        refine built_flatMap_lookup_none r ?_
        intro q hq
        rw [beq_eq_false_iff_ne]
        intro he
        rw [← hpfn] at he
        exact hN.1 (List.mem_map.mpr ⟨q, hq, he.symm⟩)
      · have hnothf : encodesNothing v = false := by simpa using hnoth
        rw [if_neg (by simp [hnothf]), if_neg (by simp [hnothf])]
        simp [List.lookup_cons]
    · have hne : (n == p.1) = false := by
        rw [beq_eq_false_iff_ne]
        intro he
        rw [← hpfn] at he
        exact hN.1 (List.mem_map.mpr ⟨pf, hmem, he⟩)
      rw [builtEntry_lookup_ne hne, Option.none_or]
      exact built_flatMap_lookup r rest n v hN.2 (fun q hq => hin q (by simp [hq]))
        ⟨pf, hmem, hpfn⟩ hv

theorem ref_mapping_lookup {s : Schema}
    (hrefs : (s.attrs.map fun p => p.2.ref).Nodup) {p : String × FieldInfo}
    (hp : p ∈ s.attrs) : s.ref_mapping.lookup p.2.ref = some p.1 := by
  unfold Schema.ref_mapping
  refine lookup_of_mem_nodup ?_ ?_
  · rw [List.map_map]
    exact hrefs
  · exact List.mem_map.mpr ⟨p, hp, rfl⟩

theorem to_builtin_emit {r : Inst}
    (hsane : schemaSane r.schema = true)
    (hrange : withinRanges r = true)
    (hnodup : repeatListsNodup r = true) :
    to_builtin_ident (emitList r) (Sum.inl r.IDm) r.schema = .ok [builtAttrs r] := by
  have hid := withinRanges_id hrange
  have hstr : r.IDm.pyStr = r.id := by
    rw [IDm_uriref hid]
    rfl
  obtain ⟨hnamesN, hrefsN, htype, hidn⟩ := schemaSane_parts hsane
  have hconds : ∀ p ∈ r.schema.attrs, (p.2.ref == RDF_type) = false
      ∧ r.schema.ref_mapping.lookup p.2.ref = some p.1
      ∧ r.schema.attrs.lookup p.1 = some p.2
      ∧ fieldInRange p.2 ((r.fields.lookup p.1).getD (.atom .vnone)) = true
      ∧ ([("id", DecVal.raw (.atom (.vstr r.id)))] : List (String × DecVal)).lookup p.1
          = Option.none := by
    intro p hp
    refine ⟨?_, ref_mapping_lookup hrefsN hp, lookup_of_mem_nodup hnamesN hp, ?_, ?_⟩
    · rw [beq_eq_false_iff_ne]
      intro he
      exact htype (List.mem_map.mpr ⟨p, hp, he⟩)
    · rcases withinRanges_field hrange hp with ⟨v, hl, hin⟩
      rw [hl]
      simpa using hin
    · have hne : (p.1 == "id") = false := by
        rw [beq_eq_false_iff_ne]
        intro he
        exact hidn (List.mem_map.mpr ⟨p, hp, he⟩)
      simp [List.lookup_cons, hne]
  have hinAll : ∀ p ∈ r.schema.attrs,
      fieldInRange p.2 ((r.fields.lookup p.1).getD (.atom .vnone)) = true :=
    fun p hp => (hconds p hp).2.2.2.1
  unfold to_builtin_ident
  rw [get_subjects_emit hid, except_bind_ok]
  rw [List.mapM_cons]
  simp only []
  rw [hstr]
  rw [predicate_objects_emit hsane hrange hnodup]
  unfold poList
  rw [List.foldlM_cons, update_rdftype, except_bind_ok]
  rw [decode_fold r r.schema r.schema.attrs [("id", DecVal.raw (.atom (.vstr r.id)))]
    hconds hnamesN]
  rw [except_bind_ok]
  rw [List.singleton_append, List.mapM_cons]
  rw [builtins_fold r r.schema.attrs hinAll]
  rfl

theorem mapM_ok_pairwise {α β : Type} (f : α → Except PyError β) :
    ∀ (l1 : List α) (l2 : List β), l1.length = l2.length →
      (∀ q ∈ l1.zip l2, f q.1 = .ok q.2) → l1.mapM f = .ok l2
  | [], [], _, _ => rfl
  | [], b :: l2, hl, _ => by simp at hl
  | a :: l1, [], hl, _ => by simp at hl
  | a :: l1, b :: l2, hl, h => by
    rw [List.mapM_cons]
    rw [h (a, b) (by simp [List.zip_cons_cons])]
    rw [except_bind_ok]
    rw [mapM_ok_pairwise f l1 l2 (by simpa using hl)
      (fun q hq => h q (by simp [List.zip_cons_cons, hq]))]
    rfl

theorem encodesNothing_shape {info : FieldInfo} {v : PyValue}
    (hin : fieldInRange info v = true) (h : encodesNothing v = true) :
    v = .atom .vnone ∨ v = .list [] := by
  cases v with
  | atom a =>
    left
    unfold encodesNothing presentItems at h
    by_cases ha : a = Scalar.vnone
    · rw [ha]
    · simp [ha] at h
  | list items =>
    right
    have hh : (info.repeats && items.all (fun a => scalarMatchesRange info.range a)) = true := hin
    simp at hh
    have hpi := presentItems_list_inrange (fun a ha => hh.2 a ha)
    unfold encodesNothing at h
    rw [hpi] at h
    have hnil : items = [] := by simpa using h
    rw [hnil]

theorem msgspec_convert_built (r : Inst) (model : ModelCls)
    (hschema : model.schema = r.schema)
    (hnames : r.schema.attrs.map Prod.fst = r.fields.map Prod.fst)
    (hsane : schemaSane r.schema = true)
    (hrange : withinRanges r = true)
    (hdef : defaultsConsistent r model = true) :
    msgspec_convert (builtAttrs r) model = .ok r := by
  obtain ⟨hnamesN, hrefsN, htype, hidn⟩ := schemaSane_parts hsane
  have hfieldsN : (r.fields.map Prod.fst).Nodup := hnames ▸ hnamesN
  have hinAll : ∀ p ∈ r.schema.attrs,
      fieldInRange p.2 ((r.fields.lookup p.1).getD (.atom .vnone)) = true := by
    intro p hp
    rcases withinRanges_field hrange hp with ⟨v, hl, hin⟩
    rw [hl]
    simpa using hin
  have hdef2 := hdef
  unfold defaultsConsistent at hdef2
  rw [Bool.and_eq_true] at hdef2
  obtain ⟨hlenB, hallB⟩ := hdef2
  have hlen : model.fieldsDef.length = r.fields.length := by simpa using hlenB
  rw [List.all_eq_true] at hallB
  have hentry : ∀ q ∈ model.fieldsDef.zip r.fields,
      (fun fd => match (builtAttrs r).lookup fd.1 with
        | some v => Except.ok (fd.1, v)
        | Option.none =>
          match fd.2 with
          | some d => Except.ok (fd.1, d)
          | Option.none => Except.error PyError.validationError) q.1 = Except.ok q.2 := by
    intro q hq
    have hq2 := hallB q hq
    rw [Bool.and_eq_true] at hq2
    have hname : q.1.1 = q.2.1 := eq_of_beq hq2.1
    obtain ⟨hq1mem, hq2mem⟩ := List.of_mem_zip hq
    have hlookF : r.fields.lookup q.2.1 = some q.2.2 := lookup_of_mem_nodup hfieldsN hq2mem
    have hnmem : q.2.1 ∈ r.schema.attrs.map Prod.fst := by
      rw [hnames]
      exact List.mem_map.mpr ⟨q.2, hq2mem, rfl⟩
    rcases List.mem_map.mp hnmem with ⟨pf, hpf, hpfn⟩
    have hvP : (r.fields.lookup q.2.1).getD (.atom .vnone) = q.2.2 := by
      rw [hlookF]
      rfl
    have hlookid : (q.2.1 == "id") = false := by
      rw [beq_eq_false_iff_ne]
      intro he
      exact hidn (he ▸ hnmem)
    have hlookB : (builtAttrs r).lookup q.2.1
        = if encodesNothing q.2.2 then Option.none else some q.2.2 := by
      unfold builtAttrs
      rw [List.lookup_cons]
      simp only [hlookid, Bool.false_eq_true, if_false]
      exact built_flatMap_lookup r r.schema.attrs q.2.1 q.2.2 hnamesN hinAll ⟨pf, hpf, hpfn⟩ hvP
    have hinq : fieldInRange pf.2 q.2.2 = true := by
      have hthis := hinAll pf hpf
      rw [hpfn, hvP] at hthis
      exact hthis
    simp only []
    rw [hname, hlookB]
    by_cases hnoth : encodesNothing q.2.2 = true
    · rcases encodesNothing_shape hinq hnoth with hsh | hsh
      · have hcond := hq2.2
        have hcondb : (q.2.2 == PyValue.atom .vnone || q.2.2 == PyValue.list []) = true := by
          simp [hsh]
        simp only [hcondb, if_true] at hcond
        have hdefault : q.1.2 = some q.2.2 := eq_of_beq hcond
        simp only [hnoth, if_true]
        rw [hdefault]
      · have hcond := hq2.2
        have hcondb : (q.2.2 == PyValue.atom .vnone || q.2.2 == PyValue.list []) = true := by
          simp [hsh]
        simp only [hcondb, if_true] at hcond
        have hdefault : q.1.2 = some q.2.2 := eq_of_beq hcond
        simp only [hnoth, if_true]
        rw [hdefault]
    · have hnothf : encodesNothing q.2.2 = false := by simpa using hnoth
      simp only [hnothf, Bool.false_eq_true, if_false]
  unfold msgspec_convert
  have hlookupid : (builtAttrs r).lookup "id" = some (PyValue.atom (.vstr r.id)) := by
    unfold builtAttrs
    rw [List.lookup_cons]
    simp
  rw [hlookupid]
  rw [mapM_ok_pairwise _ model.fieldsDef r.fields hlen hentry]
  rw [hschema]
  rfl

theorem to_struct_emit {r : Inst} (model : ModelCls)
    (hschema : model.schema = r.schema)
    (hnames : r.schema.attrs.map Prod.fst = r.fields.map Prod.fst)
    (hsane : schemaSane r.schema = true)
    (hrange : withinRanges r = true)
    (hnodup : repeatListsNodup r = true)
    (hdef : defaultsConsistent r model = true) :
    to_struct (emitList r) (Sum.inl r.IDm) model Option.none = .ok r := by
  have hstep : to_struct (emitList r) (Sum.inl r.IDm) model Option.none
      = (to_builtin_ident (emitList r) (Sum.inl r.IDm) model.schema >>= fun dk =>
          match dk with
          | [] => .error .indexError
          | d :: _ => msgspec_convert d model) := rfl
  rw [hstep, hschema]
  rw [to_builtin_emit hsane hrange hnodup, except_bind_ok]
  exact msgspec_convert_built r model hschema hnames hsane hrange hdef

/-- C1: round trip through the graph codec.  For every record whose schema
bookkeeping is sane, whose identifier is nonempty, whose field values all lie
within the declared ranges, whose container values are duplicate-free, and
whose model class declares the record fields in order with the declared
defaults on statement-free values, decoding the emitted statements against
the record identifier returns the record exactly. -/
theorem round_trip_identity (r : Inst) (model : ModelCls)
    (hschema : model.schema = r.schema)
    (hnames : r.schema.attrs.map Prod.fst = r.fields.map Prod.fst)
    (hsane : schemaSane r.schema = true)
    (hrange : withinRanges r = true)
    (hnodup : repeatListsNodup r = true)
    (hdef : defaultsConsistent r model = true) :
    ∃ g, from_struct r Option.none Option.none = .ok g
      ∧ to_struct g (Sum.inl r.IDm) model Option.none = .ok r :=
  ⟨emitList r, from_struct_emit hsane hrange hnodup,
    to_struct_emit model hschema hnames hsane hrange hnodup hdef⟩

theorem round_trip_identity_witness :
    (meModel.schema = meInst.schema
      ∧ meInst.schema.attrs.map Prod.fst = meInst.fields.map Prod.fst
      ∧ schemaSane meInst.schema = true
      ∧ withinRanges meInst = true
      ∧ repeatListsNodup meInst = true
      ∧ defaultsConsistent meInst meModel = true)
    ∧ ∃ g, from_struct meInst Option.none Option.none = .ok g
        ∧ to_struct g (Sum.inl meInst.IDm) meModel Option.none = .ok meInst :=
  ⟨⟨by decide, by decide, by decide, by decide, by decide, by decide⟩,
    round_trip_identity meInst meModel (by decide) (by decide) (by decide) (by decide)
      (by decide) (by decide)⟩

/-- C1, counterexample to the claim as stated: a record whose repeat field
holds the same in-range string twice round-trips to a record with the
duplicate collapsed, because the emitted statements form a set. -/
theorem round_trip_duplicate_counterexample :
    withinRanges dupInst = true
    ∧ (from_struct dupInst Option.none Option.none).bind
        (fun g => to_struct g (Sum.inl dupInst.IDm) dupModel Option.none) = .ok dupDecoded
    ∧ dupDecoded ≠ dupInst := by
  refine ⟨by decide, by decide, by decide⟩
